import Mathlib

/-!
# Verification of `check_tl.py` (CheckTLfromSQL)

Shallow embedding of the trustline reconciliation script.  The network is
modelled as an environment mapping (node index, attempt number) to the
outcome of one `client.request` call; the SQLite tables are modelled as
lists of rows (rows are returned by `SELECT` in list order, `INSERT OR
REPLACE` removes the conflicting row and appends the new one, matching
rowid ordering).  Backoff sleeps and store writes are recorded in explicit
traces so that timing- and durability-related sentences of the spec can be
settled.
-/

set_option autoImplicit false

namespace CheckTL

/-- One trustline entry as returned by the ledger: a dict that may or may
not carry the `account` and `currency` keys (`line.get(...)` in the code). -/
structure TrustLine where
  account : Option String
  currency : Option String
deriving DecidableEq, Repr

/-- Outcome of one `client.request(req)` call at a given node and attempt:
an exception, a response with `is_successful()` false, or a successful
response whose `result` may or may not contain a `"lines"` field. -/
inductive AttemptResult where
  | exn : AttemptResult
  | unsuccessful : AttemptResult
  | success : Option (List TrustLine) → AttemptResult
deriving DecidableEq, Repr

/-- The network environment: what `client.request` yields at node index
`i` (into `NODES`) on attempt number `a` (1-based). -/
abbrev Env := Nat → Nat → AttemptResult

/-- `NODES` from the configuration block. -/
def NODES : List String :=
  ["https://xrplcluster.com/", "https://s2.ripple.com:51234/", "https://xrpl.link/"]

def ISSUER_OF_TOKEN : String := "rJ9uU9jKxNcsNQM2CLKUhPxNn8P4xmhDVq"

def CURRENCY_HEX : String := "4241594E414E4100000000000000000000000000"

def max_retries_per_node : Nat := 2

def base_backoff_seconds : Nat := 2

/-- Observable events of `fetch_trustlines_with_failover`: issuing attempt
`a` at node `i`, and `time.sleep` of a number of seconds. -/
inductive FetchEvent where
  | attempt : Nat → Nat → FetchEvent
  | sleep : Nat → FetchEvent
deriving DecidableEq, Repr

def isSuccess : AttemptResult → Bool
  | .success _ => true
  | _ => false

/-- The inner retry loop `for attempt in range(1, max_retries_per_node + 1)`
at node `i`: on a successful response return `result.get("lines", [])`
immediately; otherwise (exception or unsuccessful response alike) fall
through to `time.sleep(base_backoff_seconds * attempt)` and continue. -/
def runAttempts (env : Env) (i : Nat) : List Nat → Option (List TrustLine) × List FetchEvent
  | [] => (none, [])
  | a :: rest =>
    match env i a with
    | .success lf => (some (lf.getD []), [FetchEvent.attempt i a])
    | _ =>
      let r := runAttempts env i rest
      (r.1, FetchEvent.attempt i a :: FetchEvent.sleep (base_backoff_seconds * a) :: r.2)

/-- The attempt numbers tried at each node: `range(1, max_retries_per_node + 1)`. -/
def attemptNumbers : List Nat := List.range' 1 max_retries_per_node

/-- The outer loop `for node_url in NODES`: run the retry loop at each node
in order, returning the first success; `None` once every node is exhausted. -/
def runNodes (env : Env) : List Nat → Option (List TrustLine) × List FetchEvent
  | [] => (none, [])
  | i :: rest =>
    match runAttempts env i attemptNumbers with
    | (some lines, tr) => (some lines, tr)
    | (none, tr) =>
      let r := runNodes env rest
      (r.1, tr ++ r.2)

/-- `fetch_trustlines_with_failover`, instrumented with its event trace. -/
def fetch_trustlines_with_failover (env : Env) : Option (List TrustLine) × List FetchEvent :=
  runNodes env (List.range NODES.length)

/-- The value `fetch_trustlines_with_failover` returns. -/
def fetchResult (env : Env) : Option (List TrustLine) :=
  (fetch_trustlines_with_failover env).1

/-- The attempt/sleep trace of `fetch_trustlines_with_failover`. -/
def fetchTrace (env : Env) : List FetchEvent :=
  (fetch_trustlines_with_failover env).2

/-- The per-line test in `has_trustline`:
`line.get("account") == ISSUER_OF_TOKEN and line.get("currency") == CURRENCY_HEX`. -/
def lineMatches (line : TrustLine) : Bool :=
  line.account == some ISSUER_OF_TOKEN && line.currency == some CURRENCY_HEX

/-- `has_trustline`: `None` when the fetch failed everywhere, otherwise
whether some returned line matches the configured issuer and currency. -/
def has_trustline (env : Env) : Option Bool :=
  match fetchResult env with
  | none => none
  | some lines => some (lines.any lineMatches)

/-! ## The persisted store and the reconciliation driver -/

/-- A row of the source (`tokens`) or missing (`tokens_missing_tl`) table. -/
structure Row where
  Wallet : String
  Balance : ℚ
deriving DecidableEq, Repr

/-- A row of the `retry_queue` table. -/
structure RetryRow where
  Wallet : String
  Balance : ℚ
  tries : Int
deriving DecidableEq, Repr

/-- The three tables of `snapshot.db`: `tokens`, `tokens_missing_tl`,
`retry_queue`.  `SELECT` yields rows in list order. -/
structure DB where
  source : List Row
  missing : List Row
  retry : List RetryRow
deriving DecidableEq, Repr

/-- Store operations issued by the driver, in program order:
a `has_trustline` call, the `cursor.execute` writes, and `conn.commit()`. -/
inductive DbOp where
  | classify : String → DbOp
  | insertMissing : String → ℚ → DbOp
  | deleteSource : String → DbOp
  | insertRetry : String → ℚ → DbOp
  | deleteRetry : String → DbOp
  | commit : DbOp
deriving DecidableEq, Repr

def walletsOf (t : List Row) : List String := t.map Row.Wallet

def retryWalletsOf (t : List RetryRow) : List String := t.map RetryRow.Wallet

/-- `INSERT OR REPLACE INTO tokens_missing_tl (Wallet, Balance) VALUES (?, ?)`:
the conflicting row (if any) is removed and the new row appended. -/
def upsertMissing (t : List Row) (w : String) (b : ℚ) : List Row :=
  t.filter (fun r => r.Wallet != w) ++ [⟨w, b⟩]

/-- `SELECT tries FROM retry_queue WHERE Wallet = ?`. -/
def lookupTries (t : List RetryRow) (w : String) : Option Int :=
  (t.find? (fun r => r.Wallet == w)).map RetryRow.tries

/-- `INSERT OR REPLACE INTO retry_queue (Wallet, Balance, tries) VALUES
(?, ?, COALESCE((SELECT tries FROM retry_queue WHERE Wallet=?), 0))`:
the `tries` value is read from the table before the replace. -/
def upsertRetry (t : List RetryRow) (w : String) (b : ℚ) : List RetryRow :=
  t.filter (fun r => r.Wallet != w) ++ [⟨w, b, (lookupTries t w).getD 0⟩]

/-- `DELETE FROM <table> WHERE Wallet = ?` on a source/missing-shaped table. -/
def deleteRows (t : List Row) (w : String) : List Row :=
  t.filter (fun r => r.Wallet != w)

/-- `DELETE FROM retry_queue WHERE Wallet = ?`. -/
def deleteRetryRows (t : List RetryRow) (w : String) : List RetryRow :=
  t.filter (fun r => r.Wallet != w)

/-- The first row with the given wallet key. -/
def findRowM (t : List Row) (w : String) : Option Row :=
  t.find? (fun r => r.Wallet == w)

/-- The first retry row with the given wallet key. -/
def findRowR (t : List RetryRow) (w : String) : Option RetryRow :=
  t.find? (fun r => r.Wallet == w)

/-- Accumulated state of `process_Wallets_table`: the database, the two
counters, and the trace of store operations issued so far. -/
structure PassState where
  db : DB
  moved_missing : Nat
  moved_retry : Nat
  ops : List DbOp
deriving Repr

/-- The body of the `for (Wallet, Balance) in rows` loop of
`process_Wallets_table`, with `tl Wallet` standing for the value of
`has_trustline(Wallet)` during this pass. -/
def pass1Step (tl : String → Option Bool) (second_pass : Bool)
    (st : PassState) (row : Row) : PassState :=
  let st := { st with ops := st.ops ++ [DbOp.classify row.Wallet] }
  match tl row.Wallet with
  | some true => st
  | some false =>
    { st with
      db := { st.db with
                missing := upsertMissing st.db.missing row.Wallet row.Balance,
                source := deleteRows st.db.source row.Wallet },
      moved_missing := st.moved_missing + 1,
      ops := st.ops ++ [DbOp.insertMissing row.Wallet row.Balance,
                        DbOp.deleteSource row.Wallet] }
  | none =>
    if second_pass then
      { st with
        db := { st.db with
                  missing := upsertMissing st.db.missing row.Wallet row.Balance,
                  source := deleteRows st.db.source row.Wallet },
        moved_missing := st.moved_missing + 1,
        ops := st.ops ++ [DbOp.insertMissing row.Wallet row.Balance,
                          DbOp.deleteSource row.Wallet] }
    else
      { st with
        db := { st.db with
                  retry := upsertRetry st.db.retry row.Wallet row.Balance,
                  source := deleteRows st.db.source row.Wallet },
        moved_retry := st.moved_retry + 1,
        ops := st.ops ++ [DbOp.insertRetry row.Wallet row.Balance,
                          DbOp.deleteSource row.Wallet] }

/-- `process_Wallets_table(conn, table_name, second_pass)` over the source
table: snapshot the rows (`fetchall`), process each, then `conn.commit()`. -/
def process_Wallets_table (tl : String → Option Bool) (second_pass : Bool)
    (db : DB) : PassState :=
  let final := db.source.foldl (pass1Step tl second_pass) ⟨db, 0, 0, []⟩
  { final with ops := final.ops ++ [DbOp.commit] }

/-- Accumulated state of `process_retry_queue`. -/
structure Pass2State where
  db : DB
  moved_missing : Nat
  ops : List DbOp
deriving Repr

/-- The body of the `for (Wallet, Balance, tries) in rows` loop of
`process_retry_queue`: `True` deletes from the retry queue, `False` and
`None` alike move the row to the missing table. -/
def pass2Step (tl : String → Option Bool) (st : Pass2State) (row : RetryRow) :
    Pass2State :=
  let st := { st with ops := st.ops ++ [DbOp.classify row.Wallet] }
  match tl row.Wallet with
  | some true =>
    { st with
      db := { st.db with retry := deleteRetryRows st.db.retry row.Wallet },
      ops := st.ops ++ [DbOp.deleteRetry row.Wallet] }
  | _ =>
    { st with
      db := { st.db with
                missing := upsertMissing st.db.missing row.Wallet row.Balance,
                retry := deleteRetryRows st.db.retry row.Wallet },
      moved_missing := st.moved_missing + 1,
      ops := st.ops ++ [DbOp.insertMissing row.Wallet row.Balance,
                        DbOp.deleteRetry row.Wallet] }

/-- `process_retry_queue(conn)`: snapshot the retry rows, process each,
then `conn.commit()`. -/
def process_retry_queue (tl : String → Option Bool) (db : DB) : Pass2State :=
  let final := db.retry.foldl (pass2Step tl) ⟨db, 0, []⟩
  { final with ops := final.ops ++ [DbOp.commit] }

/-- Result of `main()`: final database, the counts it logs, and the
combined operation trace.  `moved_missing_2 = none` when the second pass
did not run. -/
structure RunResult where
  db : DB
  moved_missing : Nat
  moved_retry : Nat
  moved_missing_2 : Option Nat
  ops : List DbOp
deriving Repr

/-- `main()`: first pass over the airdrop table with `second_pass=False`,
then `process_retry_queue` only when `moved_retry > 0`.  The two network
oracles `tl1` and `tl2` give the value of `has_trustline` for each wallet
during the respective pass (two calls to the network may differ). -/
def main (tl1 tl2 : String → Option Bool) (db0 : DB) : RunResult :=
  let p1 := process_Wallets_table tl1 false db0
  if 0 < p1.moved_retry then
    let p2 := process_retry_queue tl2 p1.db
    ⟨p2.db, p1.moved_missing, p1.moved_retry, some p2.moved_missing, p1.ops ++ p2.ops⟩
  else
    ⟨p1.db, p1.moved_missing, p1.moved_retry, none, p1.ops⟩

/-- Well-formed database: wallet identifiers unique within each table and
mutually exclusive across tables. -/
def DB.WF (db : DB) : Prop :=
  (walletsOf db.source).Nodup ∧ (walletsOf db.missing).Nodup ∧
    (retryWalletsOf db.retry).Nodup ∧
    (walletsOf db.source).Disjoint (walletsOf db.missing) ∧
    (walletsOf db.source).Disjoint (retryWalletsOf db.retry) ∧
    (walletsOf db.missing).Disjoint (retryWalletsOf db.retry)

instance (db : DB) : Decidable db.WF := by
  unfold DB.WF List.Disjoint
  infer_instance

/-- In how many of the three tables does wallet `w` currently reside? -/
def residentCount (db : DB) (w : String) : Nat :=
  (if w ∈ walletsOf db.source then 1 else 0) +
    (if w ∈ walletsOf db.missing then 1 else 0) +
    (if w ∈ retryWalletsOf db.retry then 1 else 0)

/-- The database states observable between per-wallet steps of pass 1
(initial state included). -/
def pass1States (tl : String → Option Bool) (second_pass : Bool) (db : DB) :
    List DB :=
  (db.source.scanl (pass1Step tl second_pass) ⟨db, 0, 0, []⟩).map PassState.db

/-- The database states observable between per-wallet steps of pass 2. -/
def pass2States (tl : String → Option Bool) (db : DB) : List DB :=
  (db.retry.scanl (pass2Step tl) ⟨db, 0, []⟩).map Pass2State.db

/-- All database states observable between per-wallet steps of `main`. -/
def mainStates (tl1 tl2 : String → Option Bool) (db0 : DB) : List DB :=
  let p1 := process_Wallets_table tl1 false db0
  if 0 < p1.moved_retry then
    pass1States tl1 false db0 ++ pass2States tl2 p1.db
  else
    pass1States tl1 false db0

/-! ## Engine lemmas -/

lemma attemptNumbers_eq : attemptNumbers = [1, 2] := rfl

lemma range_NODES : List.range NODES.length = [0, 1, 2] := rfl

lemma isSuccess_eq_true (r : AttemptResult) :
    isSuccess r = true ↔ ∃ lf, r = AttemptResult.success lf := by
  cases r <;> simp [isSuccess]

lemma isSuccess_eq_false (r : AttemptResult) :
    isSuccess r = false ↔ r = AttemptResult.exn ∨ r = AttemptResult.unsuccessful := by
  cases r <;> simp [isSuccess]

/-- Both attempts at node `i` fail. -/
def nodeFails (env : Env) (i : Nat) : Prop :=
  isSuccess (env i 1) = false ∧ isSuccess (env i 2) = false

lemma runAttempts_succ1 (env : Env) (i : Nat) (lf : Option (List TrustLine))
    (h : env i 1 = AttemptResult.success lf) :
    runAttempts env i attemptNumbers = (some (lf.getD []), [FetchEvent.attempt i 1]) := by
  simp [attemptNumbers_eq, runAttempts, h]

lemma runAttempts_succ2 (env : Env) (i : Nat) (lf : Option (List TrustLine))
    (h1 : isSuccess (env i 1) = false) (h : env i 2 = AttemptResult.success lf) :
    runAttempts env i attemptNumbers =
      (some (lf.getD []),
        [FetchEvent.attempt i 1, FetchEvent.sleep 2, FetchEvent.attempt i 2]) := by
  rcases (isSuccess_eq_false _).mp h1 with h1 | h1 <;>
    simp [attemptNumbers_eq, runAttempts, h1, h, base_backoff_seconds]

lemma runAttempts_fail (env : Env) (i : Nat)
    (h1 : isSuccess (env i 1) = false) (h2 : isSuccess (env i 2) = false) :
    runAttempts env i attemptNumbers =
      (none, [FetchEvent.attempt i 1, FetchEvent.sleep 2, FetchEvent.attempt i 2,
              FetchEvent.sleep 4]) := by
  rcases (isSuccess_eq_false _).mp h1 with h1 | h1 <;>
    rcases (isSuccess_eq_false _).mp h2 with h2 | h2 <;>
      simp [attemptNumbers_eq, runAttempts, h1, h2, base_backoff_seconds]

lemma runAttempts_fst_none_iff (env : Env) (i : Nat) :
    (runAttempts env i attemptNumbers).1 = none ↔ nodeFails env i := by
  cases h1 : isSuccess (env i 1)
  · cases h2 : isSuccess (env i 2)
    · rw [runAttempts_fail env i h1 h2]
      simp [nodeFails, h1, h2]
    · obtain ⟨lf, h⟩ := (isSuccess_eq_true _).mp h2
      rw [runAttempts_succ2 env i lf h1 h]
      simp [nodeFails, h2]
  · obtain ⟨lf, h⟩ := (isSuccess_eq_true _).mp h1
    rw [runAttempts_succ1 env i lf h]
    simp [nodeFails, h1]

lemma runNodes_fst_none_cons (env : Env) (i : Nat) (rest : List Nat) :
    (runNodes env (i :: rest)).1 = none ↔
      (runAttempts env i attemptNumbers).1 = none ∧ (runNodes env rest).1 = none := by
  rcases h : runAttempts env i attemptNumbers with ⟨fst, tr⟩
  cases fst <;> simp [runNodes, h]

lemma fetchResult_none_iff (env : Env) :
    fetchResult env = none ↔ nodeFails env 0 ∧ nodeFails env 1 ∧ nodeFails env 2 := by
  show (runNodes env (List.range NODES.length)).1 = none ↔ _
  rw [range_NODES]
  rw [runNodes_fst_none_cons, runNodes_fst_none_cons, runNodes_fst_none_cons]
  rw [runAttempts_fst_none_iff, runAttempts_fst_none_iff, runAttempts_fst_none_iff]
  simp [runNodes]

lemma fetch_s0 (env : Env) (lf : Option (List TrustLine)) (tr : List FetchEvent)
    (h : runAttempts env 0 attemptNumbers = (some (lf.getD []), tr)) :
    fetch_trustlines_with_failover env = (some (lf.getD []), tr) := by
  rw [fetch_trustlines_with_failover, range_NODES]
  simp [runNodes, h]

lemma fetch_s1 (env : Env) (lf : Option (List TrustLine)) (tr : List FetchEvent)
    (h0 : nodeFails env 0)
    (h : runAttempts env 1 attemptNumbers = (some (lf.getD []), tr)) :
    fetch_trustlines_with_failover env =
      (some (lf.getD []),
        [FetchEvent.attempt 0 1, FetchEvent.sleep 2, FetchEvent.attempt 0 2,
         FetchEvent.sleep 4] ++ tr) := by
  rw [fetch_trustlines_with_failover, range_NODES]
  simp [runNodes, runAttempts_fail env 0 h0.1 h0.2, h]

lemma fetch_s2 (env : Env) (lf : Option (List TrustLine)) (tr : List FetchEvent)
    (h0 : nodeFails env 0) (h1 : nodeFails env 1)
    (h : runAttempts env 2 attemptNumbers = (some (lf.getD []), tr)) :
    fetch_trustlines_with_failover env =
      (some (lf.getD []),
        [FetchEvent.attempt 0 1, FetchEvent.sleep 2, FetchEvent.attempt 0 2,
         FetchEvent.sleep 4, FetchEvent.attempt 1 1, FetchEvent.sleep 2,
         FetchEvent.attempt 1 2, FetchEvent.sleep 4] ++ tr) := by
  rw [fetch_trustlines_with_failover, range_NODES]
  simp [runNodes, runAttempts_fail env 0 h0.1 h0.2, runAttempts_fail env 1 h1.1 h1.2, h]

lemma fetch_all_fail (env : Env)
    (h0 : nodeFails env 0) (h1 : nodeFails env 1) (h2 : nodeFails env 2) :
    fetch_trustlines_with_failover env =
      (none,
        [FetchEvent.attempt 0 1, FetchEvent.sleep 2, FetchEvent.attempt 0 2,
         FetchEvent.sleep 4, FetchEvent.attempt 1 1, FetchEvent.sleep 2,
         FetchEvent.attempt 1 2, FetchEvent.sleep 4, FetchEvent.attempt 2 1,
         FetchEvent.sleep 2, FetchEvent.attempt 2 2, FetchEvent.sleep 4]) := by
  rw [fetch_trustlines_with_failover, range_NODES]
  simp [runNodes, runAttempts_fail env 0 h0.1 h0.2, runAttempts_fail env 1 h1.1 h1.2,
    runAttempts_fail env 2 h2.1 h2.2]

/-- The first success in the schedule determines the result and the trace
stops at that attempt. -/
lemma fetch_first_success (env : Env) (i a : Nat) (lf : Option (List TrustLine))
    (hi : i ∈ List.range NODES.length) (ha : a ∈ attemptNumbers)
    (hs : env i a = AttemptResult.success lf)
    (hearlier : ∀ j ∈ List.range NODES.length, ∀ b ∈ attemptNumbers,
      (j < i ∨ (j = i ∧ b < a)) → isSuccess (env j b) = false) :
    fetchResult env = some (lf.getD []) ∧
      ∀ j b, FetchEvent.attempt j b ∈ fetchTrace env → (j < i ∨ (j = i ∧ b ≤ a)) := by
  have hmem : ∀ j b, j ∈ List.range NODES.length → b ∈ attemptNumbers →
      (j < i ∨ (j = i ∧ b < a)) → isSuccess (env j b) = false :=
    fun j b hj hb => hearlier j hj b hb
  have hi2 : i = 0 ∨ i = 1 ∨ i = 2 := by simpa [range_NODES] using hi
  have ha2 : a = 1 ∨ a = 2 := by simpa [attemptNumbers_eq] using ha
  rcases hi2 with rfl | rfl | rfl <;> rcases ha2 with rfl | rfl
  · have h := fetch_s0 env lf _ (runAttempts_succ1 env 0 lf hs)
    refine ⟨congrArg Prod.fst h, ?_⟩
    intro j b hm
    rw [show fetchTrace env = _ from congrArg Prod.snd h] at hm
    simp at hm
    omega
  · have hf1 : isSuccess (env 0 1) = false :=
      hmem 0 1 (by decide) (by decide) (by omega)
    have h := fetch_s0 env lf _ (runAttempts_succ2 env 0 lf hf1 hs)
    refine ⟨congrArg Prod.fst h, ?_⟩
    intro j b hm
    rw [show fetchTrace env = _ from congrArg Prod.snd h] at hm
    simp at hm
    omega
  · have h0 : nodeFails env 0 :=
      ⟨hmem 0 1 (by decide) (by decide) (by omega), hmem 0 2 (by decide) (by decide) (by omega)⟩
    have h := fetch_s1 env lf _ h0 (runAttempts_succ1 env 1 lf hs)
    refine ⟨congrArg Prod.fst h, ?_⟩
    intro j b hm
    rw [show fetchTrace env = _ from congrArg Prod.snd h] at hm
    simp at hm
    omega
  · have h0 : nodeFails env 0 :=
      ⟨hmem 0 1 (by decide) (by decide) (by omega), hmem 0 2 (by decide) (by decide) (by omega)⟩
    have hf1 : isSuccess (env 1 1) = false :=
      hmem 1 1 (by decide) (by decide) (by omega)
    have h := fetch_s1 env lf _ h0 (runAttempts_succ2 env 1 lf hf1 hs)
    refine ⟨congrArg Prod.fst h, ?_⟩
    intro j b hm
    rw [show fetchTrace env = _ from congrArg Prod.snd h] at hm
    simp at hm
    omega
  · have h0 : nodeFails env 0 :=
      ⟨hmem 0 1 (by decide) (by decide) (by omega), hmem 0 2 (by decide) (by decide) (by omega)⟩
    have h1 : nodeFails env 1 :=
      ⟨hmem 1 1 (by decide) (by decide) (by omega), hmem 1 2 (by decide) (by decide) (by omega)⟩
    have h := fetch_s2 env lf _ h0 h1 (runAttempts_succ1 env 2 lf hs)
    refine ⟨congrArg Prod.fst h, ?_⟩
    intro j b hm
    rw [show fetchTrace env = _ from congrArg Prod.snd h] at hm
    simp at hm
    omega
  · have h0 : nodeFails env 0 :=
      ⟨hmem 0 1 (by decide) (by decide) (by omega), hmem 0 2 (by decide) (by decide) (by omega)⟩
    have h1 : nodeFails env 1 :=
      ⟨hmem 1 1 (by decide) (by decide) (by omega), hmem 1 2 (by decide) (by decide) (by omega)⟩
    have hf1 : isSuccess (env 2 1) = false :=
      hmem 2 1 (by decide) (by decide) (by omega)
    have h := fetch_s2 env lf _ h0 h1 (runAttempts_succ2 env 2 lf hf1 hs)
    refine ⟨congrArg Prod.fst h, ?_⟩
    intro j b hm
    rw [show fetchTrace env = _ from congrArg Prod.snd h] at hm
    simp at hm
    omega

lemma runAttempts_congr (env env2 : Env) (i : Nat)
    (h : ∀ a, env i a = env2 i a ∨
      (isSuccess (env i a) = false ∧ isSuccess (env2 i a) = false)) :
    ∀ l, runAttempts env i l = runAttempts env2 i l := by
  intro l
  induction l with
  | nil => rfl
  | cons a rest ih =>
    rcases h a with heq | ⟨hf1, hf2⟩
    · rcases h2 : env2 i a with _ | _ | lf <;>
        simp [runAttempts, heq, h2, ih]
    · rcases (isSuccess_eq_false _).mp hf1 with h1 | h1 <;>
        rcases (isSuccess_eq_false _).mp hf2 with h2 | h2 <;>
          simp [runAttempts, h1, h2, ih]

lemma runNodes_congr (env env2 : Env)
    (h : ∀ i a, env i a = env2 i a ∨
      (isSuccess (env i a) = false ∧ isSuccess (env2 i a) = false)) :
    ∀ l, runNodes env l = runNodes env2 l := by
  intro l
  induction l with
  | nil => rfl
  | cons i rest ih =>
    have ha := runAttempts_congr env env2 i (h i) attemptNumbers
    rcases h2 : runAttempts env2 i attemptNumbers with ⟨fst, tr⟩
    cases fst <;> simp [runNodes, ha, h2, ih]

lemma lineMatches_iff (line : TrustLine) :
    lineMatches line = true ↔
      (line.account = some ISSUER_OF_TOKEN ∧ line.currency = some CURRENCY_HEX) := by
  simp [lineMatches]

/-! ## Concrete environments used as witnesses and counterexamples -/

/-- Every request raises an exception. -/
def envAllFail : Env := fun _ _ => AttemptResult.exn

/-- Every response comes back with `is_successful()` false. -/
def envAllFail2 : Env := fun _ _ => AttemptResult.unsuccessful

/-- Node 0 always raises; node 1 answers successfully with no lines. -/
def envC6 : Env := fun i _ => if i = 0 then AttemptResult.exn else AttemptResult.success (some [])

/-- Every request succeeds and returns exactly the configured trustline. -/
def envW1 : Env := fun _ _ =>
  AttemptResult.success (some [⟨some ISSUER_OF_TOKEN, some CURRENCY_HEX⟩])

/-- Every request succeeds with an empty trustline list. -/
def envW2 : Env := fun _ _ => AttemptResult.success (some [])

/-- Every request succeeds, but the `result` dict has no `"lines"` key. -/
def envNoLines : Env := fun _ _ => AttemptResult.success none

/-! ## C1: the classifier -/

/-- **C1**: `has_trustline` is Indeterminate (`none`) exactly when the
failover engine is; otherwise, given the returned list, it is Present
(`some true`) iff some entry matches the configured issuer and currency
exactly, and Absent (`some false`) otherwise — including for the empty
list, and independent of order or unrelated entries. -/
theorem has_trustline_spec (env : Env) :
    (has_trustline env = none ↔ fetchResult env = none) ∧
    ∀ lines, fetchResult env = some lines →
      ((has_trustline env = some true ↔ ∃ line ∈ lines,
          line.account = some ISSUER_OF_TOKEN ∧ line.currency = some CURRENCY_HEX) ∧
        (has_trustline env = some false ↔ ¬ ∃ line ∈ lines,
          line.account = some ISSUER_OF_TOKEN ∧ line.currency = some CURRENCY_HEX)) := by
  constructor
  · cases h : fetchResult env <;> simp [has_trustline, h]
  · intro lines h2
    have hh : has_trustline env = some (lines.any lineMatches) := by
      simp [has_trustline, h2]
    constructor
    · simp [hh, List.any_eq_true, lineMatches_iff]
    · simp [hh, List.any_eq_false, lineMatches_iff]

/-- Witness for C1 at a concrete environment holding the trustline. -/
theorem has_trustline_spec_witness : has_trustline envW1 = some true :=
  (((has_trustline_spec envW1).2 [⟨some ISSUER_OF_TOKEN, some CURRENCY_HEX⟩]
      (by decide)).1).mpr
    ⟨⟨some ISSUER_OF_TOKEN, some CURRENCY_HEX⟩, by decide, rfl, rfl⟩

/-! ## C2: the failover engine -/

/-- **C2**: the engine returns Indeterminate (`none`) iff every endpoint
exhausts its `max_retries_per_node = 2` attempts without success; the
first successful response is returned immediately (its `"lines"` value,
defaulted to `[]`), with no later attempt issued on any node; and
exceptions are indistinguishable from unsuccessful responses — the result
and trace only depend on where successes occur and their payloads. -/
theorem fetch_failover_spec (env env2 : Env) :
    (fetchResult env = none ↔
      ∀ i ∈ List.range NODES.length, ∀ a ∈ attemptNumbers, isSuccess (env i a) = false) ∧
    (∀ i ∈ List.range NODES.length, ∀ a ∈ attemptNumbers, ∀ lf,
      env i a = AttemptResult.success lf →
      (∀ j ∈ List.range NODES.length, ∀ b ∈ attemptNumbers,
        (j < i ∨ (j = i ∧ b < a)) → isSuccess (env j b) = false) →
      fetchResult env = some (lf.getD []) ∧
        ∀ j b, FetchEvent.attempt j b ∈ fetchTrace env → (j < i ∨ (j = i ∧ b ≤ a))) ∧
    ((∀ i a, env i a = env2 i a ∨
        (isSuccess (env i a) = false ∧ isSuccess (env2 i a) = false)) →
      fetch_trustlines_with_failover env = fetch_trustlines_with_failover env2) := by
  refine ⟨?_, ?_, ?_⟩
  · rw [fetchResult_none_iff]
    simp only [range_NODES, attemptNumbers_eq, List.mem_cons, List.not_mem_nil, or_false,
      nodeFails]
    constructor
    · rintro ⟨⟨a01, a02⟩, ⟨a11, a12⟩, ⟨a21, a22⟩⟩ i hi a ha
      rcases hi with rfl | rfl | rfl <;> rcases ha with rfl | rfl <;> assumption
    · intro h
      exact ⟨⟨h 0 (Or.inl rfl) 1 (Or.inl rfl), h 0 (Or.inl rfl) 2 (Or.inr rfl)⟩,
        ⟨h 1 (Or.inr (Or.inl rfl)) 1 (Or.inl rfl), h 1 (Or.inr (Or.inl rfl)) 2 (Or.inr rfl)⟩,
        ⟨h 2 (Or.inr (Or.inr rfl)) 1 (Or.inl rfl), h 2 (Or.inr (Or.inr rfl)) 2 (Or.inr rfl)⟩⟩
  · intro i hi a ha lf hs hearlier
    exact fetch_first_success env i a lf hi ha hs hearlier
  · intro h
    exact runNodes_congr env env2 h _

/-- Witness for C2: a first success at node 1, attempt 1 short-circuits,
and an all-exception run equals an all-unsuccessful run. -/
theorem fetch_failover_spec_witness :
    fetchResult envC6 = some [] ∧
      fetch_trustlines_with_failover envAllFail = fetch_trustlines_with_failover envAllFail2 :=
  ⟨((fetch_failover_spec envC6 envC6).2.1 1 (by decide) 1 (by decide) (some [])
      (by decide) (by decide)).1,
    (fetch_failover_spec envAllFail envAllFail2).2.2 (fun _ _ => Or.inr ⟨rfl, rfl⟩)⟩

/-! ## C6: backoff placement -/

/-- Trace well-formedness actually enforced by the code: every attempt
event that is not the final event of the trace is immediately followed by
a backoff sleep of `base_backoff_seconds *` its attempt number — i.e. the
sleep also runs after the last attempt of an exhausted endpoint. -/
def attemptFollowedOk : List FetchEvent → Bool
  | [] => true
  | [FetchEvent.attempt _ _] => true
  | FetchEvent.attempt _ a :: FetchEvent.sleep s :: rest =>
      (s == base_backoff_seconds * a) && attemptFollowedOk (FetchEvent.sleep s :: rest)
  | FetchEvent.attempt _ _ :: _ :: _ => false
  | FetchEvent.sleep _ :: rest => attemptFollowedOk rest

/-- **C6** (counterexample): with node 0 failing both attempts and node 1
succeeding at once, the engine sleeps 4 seconds after node 0's final
failed attempt, i.e. between endpoints — a sleep that is not before an
attempt after the first on a given endpoint, refuting the claim. -/
theorem backoff_counterexample :
    fetchTrace envC6 = [FetchEvent.attempt 0 1, FetchEvent.sleep 2, FetchEvent.attempt 0 2,
      FetchEvent.sleep 4, FetchEvent.attempt 1 1] ∧
    ¬ (∀ k s, (fetchTrace envC6)[k]? = some (FetchEvent.sleep s) →
        ∃ j b, (fetchTrace envC6)[k + 1]? = some (FetchEvent.attempt j b) ∧ 2 ≤ b) := by
  refine ⟨by decide, ?_⟩
  intro h
  rcases h 3 4 (by decide) with ⟨j, b, hb, h2b⟩
  have he : (fetchTrace envC6)[3 + 1]? = some (FetchEvent.attempt 1 1) := by decide
  rw [he] at hb
  simp only [Option.some_inj, FetchEvent.attempt.injEq] at hb
  omega

/-- **C6** (amended): a backoff sleep of `base_backoff_seconds * attempt`
follows every failed attempt, including the final attempt on an exhausted
endpoint, so a 4-second sleep separates an exhausted endpoint from the
next endpoint (and precedes the Indeterminate return); only a successful
attempt — which ends the trace — is not followed by a sleep. -/
theorem backoff_amended (env : Env) : attemptFollowedOk (fetchTrace env) = true := by
  cases h01 : isSuccess (env 0 1) with
  | true =>
    obtain ⟨lf, h⟩ := (isSuccess_eq_true _).mp h01
    have e := fetch_s0 env lf _ (runAttempts_succ1 env 0 lf h)
    simp only [fetchTrace, e]
    decide
  | false =>
    cases h02 : isSuccess (env 0 2) with
    | true =>
      obtain ⟨lf, h⟩ := (isSuccess_eq_true _).mp h02
      have e := fetch_s0 env lf _ (runAttempts_succ2 env 0 lf h01 h)
      simp only [fetchTrace, e]
      decide
    | false =>
      have h0 : nodeFails env 0 := ⟨h01, h02⟩
      cases h11 : isSuccess (env 1 1) with
      | true =>
        obtain ⟨lf, h⟩ := (isSuccess_eq_true _).mp h11
        have e := fetch_s1 env lf _ h0 (runAttempts_succ1 env 1 lf h)
        simp only [fetchTrace, e]
        decide
      | false =>
        cases h12 : isSuccess (env 1 2) with
        | true =>
          obtain ⟨lf, h⟩ := (isSuccess_eq_true _).mp h12
          have e := fetch_s1 env lf _ h0 (runAttempts_succ2 env 1 lf h11 h)
          simp only [fetchTrace, e]
          decide
        | false =>
          have h1 : nodeFails env 1 := ⟨h11, h12⟩
          cases h21 : isSuccess (env 2 1) with
          | true =>
            obtain ⟨lf, h⟩ := (isSuccess_eq_true _).mp h21
            have e := fetch_s2 env lf _ h0 h1 (runAttempts_succ1 env 2 lf h)
            simp only [fetchTrace, e]
            decide
          | false =>
            cases h22 : isSuccess (env 2 2) with
            | true =>
              obtain ⟨lf, h⟩ := (isSuccess_eq_true _).mp h22
              have e := fetch_s2 env lf _ h0 h1 (runAttempts_succ2 env 2 lf h21 h)
              simp only [fetchTrace, e]
              decide
            | false =>
              have e := fetch_all_fail env h0 h1 ⟨h21, h22⟩
              simp only [fetchTrace, e]
              decide

/-! ## Table-level lemmas -/

lemma find?_filter_stable {α : Type} (p q : α → Bool) (h : ∀ x, q x = true → p x = true) :
    ∀ l : List α, (l.filter p).find? q = l.find? q := by
  intro l
  induction l with
  | nil => rfl
  | cons x rest ih =>
    cases hp : p x
    · have hq : q x = false := by
        cases hq : q x
        · rfl
        · rw [h x hq] at hp
          exact absurd hp (by simp)
      simp [List.filter_cons, hp, List.find?_cons, hq, ih]
    · simp only [List.filter_cons, hp, if_true]
      cases hq : q x <;> simp [List.find?_cons, hq, ih]

lemma findRowM_upsert_self (t : List Row) (w : String) (b : ℚ) :
    findRowM (upsertMissing t w b) w = some ⟨w, b⟩ := by
  have hnone : (t.filter (fun r => r.Wallet != w)).find? (fun r => r.Wallet == w) = none := by
    rw [List.find?_eq_none]
    intro x hx
    simp only [List.mem_filter, bne_iff_ne, ne_eq] at hx
    simp [hx.2]
  simp [findRowM, upsertMissing, List.find?_append, hnone]

lemma findRowM_upsert_other (t : List Row) (w : String) (b : ℚ) (v : String) (h : v ≠ w) :
    findRowM (upsertMissing t w b) v = findRowM t v := by
  simp only [findRowM, upsertMissing, List.find?_append]
  have h2 : [Row.mk w b].find? (fun r => r.Wallet == v) = none := by
    simp [Ne.symm h]
  rw [h2, find?_filter_stable _ _ (fun x hx => by
    simp only [beq_iff_eq] at hx
    simp [hx, h])]
  cases t.find? (fun r => r.Wallet == v) <;> rfl

lemma findRowM_delete_self (t : List Row) (w : String) :
    findRowM (deleteRows t w) w = none := by
  rw [findRowM, List.find?_eq_none]
  intro x hx
  simp only [deleteRows, List.mem_filter, bne_iff_ne, ne_eq] at hx
  simp [hx.2]

lemma findRowM_delete_other (t : List Row) (w : String) (v : String) (h : v ≠ w) :
    findRowM (deleteRows t w) v = findRowM t v := by
  simp only [findRowM, deleteRows]
  exact find?_filter_stable _ _ (fun x hx => by
    simp only [beq_iff_eq] at hx
    simp [hx, h]) t

lemma mem_walletsOf_upsert (t : List Row) (w : String) (b : ℚ) (v : String) :
    v ∈ walletsOf (upsertMissing t w b) ↔ (v = w ∨ v ∈ walletsOf t) := by
  simp only [walletsOf, upsertMissing, List.map_append, List.mem_append, List.mem_map,
    List.mem_filter, bne_iff_ne, ne_eq]
  constructor
  · rintro (⟨r, ⟨hr, _⟩, rfl⟩ | h)
    · exact Or.inr ⟨r, hr, rfl⟩
    · simp at h
      exact Or.inl h.symm
  · rintro (rfl | ⟨r, hr, rfl⟩)
    · simp
    · by_cases hw : r.Wallet = w
      · simp [hw]
      · exact Or.inl ⟨r, ⟨hr, hw⟩, rfl⟩

lemma mem_walletsOf_delete (t : List Row) (w : String) (v : String) :
    v ∈ walletsOf (deleteRows t w) ↔ (v ∈ walletsOf t ∧ v ≠ w) := by
  simp only [walletsOf, deleteRows, List.mem_map, List.mem_filter, bne_iff_ne, ne_eq]
  constructor
  · rintro ⟨r, ⟨hr, hne⟩, rfl⟩
    exact ⟨⟨r, hr, rfl⟩, hne⟩
  · rintro ⟨⟨r, hr, rfl⟩, hne⟩
    exact ⟨r, ⟨hr, hne⟩, rfl⟩

lemma mem_rows_delete (t : List Row) (w : String) (r : Row) :
    r ∈ deleteRows t w ↔ (r ∈ t ∧ r.Wallet ≠ w) := by
  simp [deleteRows, List.mem_filter]

lemma nodup_walletsOf_upsert (t : List Row) (w : String) (b : ℚ)
    (h : (walletsOf t).Nodup) : (walletsOf (upsertMissing t w b)).Nodup := by
  rw [walletsOf, upsertMissing, List.map_append, List.nodup_append]
  refine ⟨h.sublist (List.Sublist.map _ (List.filter_sublist t)), by simp, ?_⟩
  intro v hv hv2
  simp only [List.map_cons, List.map_nil, List.mem_singleton] at hv2
  subst hv2
  simp only [List.mem_map, List.mem_filter, bne_iff_ne, ne_eq] at hv
  obtain ⟨r, ⟨_, hne⟩, rfl⟩ := hv
  exact hne rfl

lemma nodup_walletsOf_delete (t : List Row) (w : String)
    (h : (walletsOf t).Nodup) : (walletsOf (deleteRows t w)).Nodup :=
  h.sublist (List.Sublist.map _ (List.filter_sublist t))

/-! Retry-table counterparts. -/

lemma findRowR_upsert_self (t : List RetryRow) (w : String) (b : ℚ) :
    findRowR (upsertRetry t w b) w = some ⟨w, b, (lookupTries t w).getD 0⟩ := by
  have hnone : (t.filter (fun r => r.Wallet != w)).find? (fun r => r.Wallet == w) = none := by
    rw [List.find?_eq_none]
    intro x hx
    simp only [List.mem_filter, bne_iff_ne, ne_eq] at hx
    simp [hx.2]
  simp [findRowR, upsertRetry, List.find?_append, hnone]

lemma findRowR_upsert_other (t : List RetryRow) (w : String) (b : ℚ) (v : String) (h : v ≠ w) :
    findRowR (upsertRetry t w b) v = findRowR t v := by
  simp only [findRowR, upsertRetry, List.find?_append]
  have h2 : [RetryRow.mk w b ((lookupTries t w).getD 0)].find? (fun r => r.Wallet == v) = none := by
    simp [Ne.symm h]
  rw [h2, find?_filter_stable _ _ (fun x hx => by
    simp only [beq_iff_eq] at hx
    simp [hx, h])]
  cases t.find? (fun r => r.Wallet == v) <;> rfl

lemma findRowR_delete_self (t : List RetryRow) (w : String) :
    findRowR (deleteRetryRows t w) w = none := by
  rw [findRowR, List.find?_eq_none]
  intro x hx
  simp only [deleteRetryRows, List.mem_filter, bne_iff_ne, ne_eq] at hx
  simp [hx.2]

lemma findRowR_delete_other (t : List RetryRow) (w : String) (v : String) (h : v ≠ w) :
    findRowR (deleteRetryRows t w) v = findRowR t v := by
  simp only [findRowR, deleteRetryRows]
  exact find?_filter_stable _ _ (fun x hx => by
    simp only [beq_iff_eq] at hx
    simp [hx, h]) t

lemma mem_retryWalletsOf_upsert (t : List RetryRow) (w : String) (b : ℚ) (v : String) :
    v ∈ retryWalletsOf (upsertRetry t w b) ↔ (v = w ∨ v ∈ retryWalletsOf t) := by
  simp only [retryWalletsOf, upsertRetry, List.map_append, List.mem_append, List.mem_map,
    List.mem_filter, bne_iff_ne, ne_eq]
  constructor
  · rintro (⟨r, ⟨hr, _⟩, rfl⟩ | h)
    · exact Or.inr ⟨r, hr, rfl⟩
    · simp at h
      exact Or.inl h.symm
  · rintro (rfl | ⟨r, hr, rfl⟩)
    · simp
    · by_cases hw : r.Wallet = w
      · simp [hw]
      · exact Or.inl ⟨r, ⟨hr, hw⟩, rfl⟩

lemma mem_retryWalletsOf_delete (t : List RetryRow) (w : String) (v : String) :
    v ∈ retryWalletsOf (deleteRetryRows t w) ↔ (v ∈ retryWalletsOf t ∧ v ≠ w) := by
  simp only [retryWalletsOf, deleteRetryRows, List.mem_map, List.mem_filter, bne_iff_ne, ne_eq]
  constructor
  · rintro ⟨r, ⟨hr, hne⟩, rfl⟩
    exact ⟨⟨r, hr, rfl⟩, hne⟩
  · rintro ⟨⟨r, hr, rfl⟩, hne⟩
    exact ⟨r, ⟨hr, hne⟩, rfl⟩

lemma nodup_retryWalletsOf_upsert (t : List RetryRow) (w : String) (b : ℚ)
    (h : (retryWalletsOf t).Nodup) : (retryWalletsOf (upsertRetry t w b)).Nodup := by
  rw [retryWalletsOf, upsertRetry, List.map_append, List.nodup_append]
  refine ⟨h.sublist (List.Sublist.map _ (List.filter_sublist t)), by simp, ?_⟩
  intro v hv hv2
  simp only [List.map_cons, List.map_nil, List.mem_singleton] at hv2
  subst hv2
  simp only [List.mem_map, List.mem_filter, bne_iff_ne, ne_eq] at hv
  obtain ⟨r, ⟨_, hne⟩, rfl⟩ := hv
  exact hne rfl

lemma nodup_retryWalletsOf_delete (t : List RetryRow) (w : String)
    (h : (retryWalletsOf t).Nodup) : (retryWalletsOf (deleteRetryRows t w)).Nodup :=
  h.sublist (List.Sublist.map _ (List.filter_sublist t))

lemma lookupTries_eq_findRowR (t : List RetryRow) (w : String) :
    lookupTries t w = (findRowR t w).map RetryRow.tries := rfl

/-! ## Step projection lemmas -/

/-- The write operations one pass-1 loop iteration issues for its row. -/
def rowOps (tl : String → Option Bool) (second_pass : Bool) (r : Row) : List DbOp :=
  DbOp.classify r.Wallet ::
    match tl r.Wallet with
    | some true => []
    | some false => [DbOp.insertMissing r.Wallet r.Balance, DbOp.deleteSource r.Wallet]
    | none =>
      if second_pass then [DbOp.insertMissing r.Wallet r.Balance, DbOp.deleteSource r.Wallet]
      else [DbOp.insertRetry r.Wallet r.Balance, DbOp.deleteSource r.Wallet]

lemma pass1Step_source (tl : String → Option Bool) (sp : Bool) (st : PassState) (r : Row) :
    (pass1Step tl sp st r).db.source =
      if tl r.Wallet = some true then st.db.source else deleteRows st.db.source r.Wallet := by
  rcases h : tl r.Wallet with _ | b
  · cases sp <;> simp [pass1Step, h]
  · cases b <;> simp [pass1Step, h]

lemma pass1Step_missing (tl : String → Option Bool) (st : PassState) (r : Row) :
    (pass1Step tl false st r).db.missing =
      if tl r.Wallet = some false then upsertMissing st.db.missing r.Wallet r.Balance
      else st.db.missing := by
  rcases h : tl r.Wallet with _ | b
  · simp [pass1Step, h]
  · cases b <;> simp [pass1Step, h]

lemma pass1Step_retry (tl : String → Option Bool) (st : PassState) (r : Row) :
    (pass1Step tl false st r).db.retry =
      if tl r.Wallet = none then upsertRetry st.db.retry r.Wallet r.Balance
      else st.db.retry := by
  rcases h : tl r.Wallet with _ | b
  · simp [pass1Step, h]
  · cases b <;> simp [pass1Step, h]

lemma pass1Step_moved_missing (tl : String → Option Bool) (st : PassState) (r : Row) :
    (pass1Step tl false st r).moved_missing =
      st.moved_missing + (if tl r.Wallet = some false then 1 else 0) := by
  rcases h : tl r.Wallet with _ | b
  · simp [pass1Step, h]
  · cases b <;> simp [pass1Step, h]

lemma pass1Step_moved_retry (tl : String → Option Bool) (st : PassState) (r : Row) :
    (pass1Step tl false st r).moved_retry =
      st.moved_retry + (if tl r.Wallet = none then 1 else 0) := by
  rcases h : tl r.Wallet with _ | b
  · simp [pass1Step, h]
  · cases b <;> simp [pass1Step, h]

lemma pass1Step_ops (tl : String → Option Bool) (sp : Bool) (st : PassState) (r : Row) :
    (pass1Step tl sp st r).ops = st.ops ++ rowOps tl sp r := by
  rcases h : tl r.Wallet with _ | b
  · cases sp <;> simp [pass1Step, rowOps, h]
  · cases b <;> simp [pass1Step, rowOps, h]

/-- The write operations one pass-2 loop iteration issues for its row. -/
def row2Ops (tl : String → Option Bool) (r : RetryRow) : List DbOp :=
  DbOp.classify r.Wallet ::
    match tl r.Wallet with
    | some true => [DbOp.deleteRetry r.Wallet]
    | _ => [DbOp.insertMissing r.Wallet r.Balance, DbOp.deleteRetry r.Wallet]

lemma pass2Step_source (tl : String → Option Bool) (st : Pass2State) (r : RetryRow) :
    (pass2Step tl st r).db.source = st.db.source := by
  rcases h : tl r.Wallet with _ | b
  · simp [pass2Step, h]
  · cases b <;> simp [pass2Step, h]

lemma pass2Step_retry (tl : String → Option Bool) (st : Pass2State) (r : RetryRow) :
    (pass2Step tl st r).db.retry = deleteRetryRows st.db.retry r.Wallet := by
  rcases h : tl r.Wallet with _ | b
  · simp [pass2Step, h]
  · cases b <;> simp [pass2Step, h]

lemma pass2Step_missing (tl : String → Option Bool) (st : Pass2State) (r : RetryRow) :
    (pass2Step tl st r).db.missing =
      if tl r.Wallet = some true then st.db.missing
      else upsertMissing st.db.missing r.Wallet r.Balance := by
  rcases h : tl r.Wallet with _ | b
  · simp [pass2Step, h]
  · cases b <;> simp [pass2Step, h]

lemma pass2Step_moved_missing (tl : String → Option Bool) (st : Pass2State) (r : RetryRow) :
    (pass2Step tl st r).moved_missing =
      st.moved_missing + (if tl r.Wallet = some true then 0 else 1) := by
  rcases h : tl r.Wallet with _ | b
  · simp [pass2Step, h]
  · cases b <;> simp [pass2Step, h]

lemma pass2Step_ops (tl : String → Option Bool) (st : Pass2State) (r : RetryRow) :
    (pass2Step tl st r).ops = st.ops ++ row2Ops tl r := by
  rcases h : tl r.Wallet with _ | b
  · simp [pass2Step, row2Ops, h]
  · cases b <;> simp [pass2Step, row2Ops, h]

/-! ## Pass-1 fold lemmas -/

lemma wallet_unique {α β : Type} (f : α → β) :
    ∀ (l : List α), (l.map f).Nodup → ∀ x ∈ l, ∀ y ∈ l, f x = f y → x = y := by
  intro l
  induction l with
  | nil => intro _ x hx; exact absurd hx (List.not_mem_nil x)
  | cons a rest ih =>
    intro h x hx y hy hf
    rw [List.map_cons, List.nodup_cons] at h
    rcases List.mem_cons.mp hx with rfl | hx2
    · rcases List.mem_cons.mp hy with rfl | hy2
      · rfl
      · exact absurd (List.mem_map.mpr ⟨y, hy2, hf.symm⟩) h.1
    · rcases List.mem_cons.mp hy with rfl | hy2
      · exact absurd (List.mem_map.mpr ⟨x, hx2, hf⟩) h.1
      · exact ih h.2 x hx2 y hy2 hf

lemma nodup_split {α β : Type} (f : α → β) (l1 l2 : List α) (x : α)
    (h : ((l1 ++ x :: l2).map f).Nodup) :
    (∀ y ∈ l1, f y ≠ f x) ∧ (∀ y ∈ l2, f y ≠ f x) := by
  rw [List.map_append, List.nodup_append, List.map_cons, List.nodup_cons] at h
  refine ⟨?_, ?_⟩
  · intro y hy heq
    exact h.2.2 (List.mem_map.mpr ⟨y, hy, rfl⟩) (heq ▸ List.mem_cons_self _ _)
  · intro y hy heq
    exact h.2.1.1 (List.mem_map.mpr ⟨y, hy, heq⟩)

lemma pass1_fold_moved_missing (tl : String → Option Bool) :
    ∀ (rows : List Row) (st : PassState),
      (rows.foldl (pass1Step tl false) st).moved_missing =
        st.moved_missing + rows.countP (fun r => tl r.Wallet == some false) := by
  intro rows
  induction rows with
  | nil => intro st; simp
  | cons r rest ih =>
    intro st
    rw [List.foldl_cons, ih, List.countP_cons, pass1Step_moved_missing]
    by_cases h : tl r.Wallet = some false <;> simp [h] <;> omega

lemma pass1_fold_moved_retry (tl : String → Option Bool) :
    ∀ (rows : List Row) (st : PassState),
      (rows.foldl (pass1Step tl false) st).moved_retry =
        st.moved_retry + rows.countP (fun r => tl r.Wallet == none) := by
  intro rows
  induction rows with
  | nil => intro st; simp
  | cons r rest ih =>
    intro st
    rw [List.foldl_cons, ih, List.countP_cons, pass1Step_moved_retry]
    by_cases h : tl r.Wallet = none <;> simp [h] <;> omega

lemma pass1_fold_ops (tl : String → Option Bool) (sp : Bool) :
    ∀ (rows : List Row) (st : PassState),
      (rows.foldl (pass1Step tl sp) st).ops = st.ops ++ (rows.map (rowOps tl sp)).flatten := by
  intro rows
  induction rows with
  | nil => intro st; simp
  | cons r rest ih =>
    intro st
    rw [List.foldl_cons, ih, pass1Step_ops]
    simp [List.append_assoc]

lemma pass1_fold_source_pres (tl : String → Option Bool) :
    ∀ (rows : List Row) (st : PassState) (w : String),
      (∀ r ∈ rows, r.Wallet = w → tl w = some true) →
      findRowM (rows.foldl (pass1Step tl false) st).db.source w = findRowM st.db.source w := by
  intro rows
  induction rows with
  | nil => intro st w _; rfl
  | cons r rest ih =>
    intro st w h
    rw [List.foldl_cons, ih _ _ (fun r2 h2 => h r2 (List.mem_cons_of_mem _ h2))]
    rw [pass1Step_source]
    by_cases ht : tl r.Wallet = some true
    · simp [ht]
    · have hne : w ≠ r.Wallet := by
        intro heq
        exact ht (heq ▸ h r (List.mem_cons_self _ _) heq.symm)
      simp only [ht, if_false]
      exact findRowM_delete_other _ _ _ hne

lemma pass1_fold_source_mem (tl : String → Option Bool) :
    ∀ (rows : List Row) (st : PassState) (r0 : Row), r0 ∈ st.db.source →
      (∀ r ∈ rows, r.Wallet = r0.Wallet → tl r0.Wallet = some true) →
      r0 ∈ (rows.foldl (pass1Step tl false) st).db.source := by
  intro rows
  induction rows with
  | nil => intro st r0 h0 _; exact h0
  | cons r rest ih =>
    intro st r0 h0 h
    rw [List.foldl_cons]
    refine ih _ _ ?_ (fun r2 h2 => h r2 (List.mem_cons_of_mem _ h2))
    rw [pass1Step_source]
    by_cases ht : tl r.Wallet = some true
    · simpa [ht] using h0
    · have hne : r0.Wallet ≠ r.Wallet := by
        intro heq
        exact ht (heq ▸ h r (List.mem_cons_self _ _) heq.symm)
      simp only [ht, if_false]
      exact (mem_rows_delete _ _ _).mpr ⟨h0, hne⟩

lemma pass1_fold_source_not_mem (tl : String → Option Bool) :
    ∀ (rows : List Row) (st : PassState) (w : String),
      w ∉ walletsOf st.db.source →
      w ∉ walletsOf (rows.foldl (pass1Step tl false) st).db.source := by
  intro rows
  induction rows with
  | nil => intro st w h; exact h
  | cons r rest ih =>
    intro st w h
    rw [List.foldl_cons]
    refine ih _ _ ?_
    rw [pass1Step_source]
    by_cases ht : tl r.Wallet = some true
    · simpa [ht] using h
    · simp only [ht, if_false]
      intro hmem
      exact h ((mem_walletsOf_delete _ _ _).mp hmem).1

lemma pass1_fold_missing_pres (tl : String → Option Bool) :
    ∀ (rows : List Row) (st : PassState) (w : String),
      (∀ r ∈ rows, r.Wallet = w → tl w ≠ some false) →
      findRowM (rows.foldl (pass1Step tl false) st).db.missing w = findRowM st.db.missing w := by
  intro rows
  induction rows with
  | nil => intro st w _; rfl
  | cons r rest ih =>
    intro st w h
    rw [List.foldl_cons, ih _ _ (fun r2 h2 => h r2 (List.mem_cons_of_mem _ h2))]
    rw [pass1Step_missing]
    by_cases hf : tl r.Wallet = some false
    · have hne : w ≠ r.Wallet := by
        intro heq
        exact h r (List.mem_cons_self _ _) heq.symm (heq ▸ hf)
      simp only [hf, if_true]
      exact findRowM_upsert_other _ _ _ _ hne
    · simp [hf]

lemma pass1_fold_retry_pres (tl : String → Option Bool) :
    ∀ (rows : List Row) (st : PassState) (w : String),
      (∀ r ∈ rows, r.Wallet = w → tl w ≠ none) →
      findRowR (rows.foldl (pass1Step tl false) st).db.retry w = findRowR st.db.retry w := by
  intro rows
  induction rows with
  | nil => intro st w _; rfl
  | cons r rest ih =>
    intro st w h
    rw [List.foldl_cons, ih _ _ (fun r2 h2 => h r2 (List.mem_cons_of_mem _ h2))]
    rw [pass1Step_retry]
    by_cases hn : tl r.Wallet = none
    · have hne : w ≠ r.Wallet := by
        intro heq
        exact h r (List.mem_cons_self _ _) heq.symm (heq ▸ hn)
      simp only [hn, if_true]
      exact findRowR_upsert_other _ _ _ _ hne
    · simp [hn]

lemma pass1_fold_retry_origin (tl : String → Option Bool) :
    ∀ (rows : List Row) (st : PassState) (w : String),
      w ∈ retryWalletsOf (rows.foldl (pass1Step tl false) st).db.retry →
      w ∈ retryWalletsOf st.db.retry ∨ tl w = none := by
  intro rows
  induction rows with
  | nil => intro st w h; exact Or.inl h
  | cons r rest ih =>
    intro st w h
    rcases ih _ _ h with hmem | hn
    · rw [pass1Step_retry] at hmem
      by_cases hn2 : tl r.Wallet = none
      · rw [hn2, if_pos rfl] at hmem
        rcases (mem_retryWalletsOf_upsert _ _ _ _).mp hmem with rfl | hmem2
        · exact Or.inr hn2
        · exact Or.inl hmem2
      · rw [if_neg hn2] at hmem
        exact Or.inl hmem
    · exact Or.inr hn

lemma pass1_fold_retry_nodup (tl : String → Option Bool) :
    ∀ (rows : List Row) (st : PassState),
      (retryWalletsOf st.db.retry).Nodup →
      (retryWalletsOf (rows.foldl (pass1Step tl false) st).db.retry).Nodup := by
  intro rows
  induction rows with
  | nil => intro st h; exact h
  | cons r rest ih =>
    intro st h
    rw [List.foldl_cons]
    refine ih _ ?_
    rw [pass1Step_retry]
    by_cases hn : tl r.Wallet = none
    · rw [hn, if_pos rfl]
      exact nodup_retryWalletsOf_upsert _ _ _ h
    · rwa [if_neg hn]

lemma process1_db (tl : String → Option Bool) (sp : Bool) (db : DB) :
    (process_Wallets_table tl sp db).db =
      (db.source.foldl (pass1Step tl sp) ⟨db, 0, 0, []⟩).db := rfl

lemma process1_moved_missing (tl : String → Option Bool) (sp : Bool) (db : DB) :
    (process_Wallets_table tl sp db).moved_missing =
      (db.source.foldl (pass1Step tl sp) ⟨db, 0, 0, []⟩).moved_missing := rfl

lemma process1_moved_retry (tl : String → Option Bool) (sp : Bool) (db : DB) :
    (process_Wallets_table tl sp db).moved_retry =
      (db.source.foldl (pass1Step tl sp) ⟨db, 0, 0, []⟩).moved_retry := rfl

lemma process1_ops (tl : String → Option Bool) (sp : Bool) (db : DB) :
    (process_Wallets_table tl sp db).ops =
      (db.source.map (rowOps tl sp)).flatten ++ [DbOp.commit] := by
  show (db.source.foldl (pass1Step tl sp) ⟨db, 0, 0, []⟩).ops ++ [DbOp.commit] = _
  rw [pass1_fold_ops]
  simp

/-! ## Per-row outcome helpers for pass 1 -/

/-- A Present row is left untouched in the source table. -/
lemma pass1_true_row (tl : String → Option Bool) (db : DB)
    (hnd : (walletsOf db.source).Nodup) (r : Row) (hr : r ∈ db.source)
    (htl : tl r.Wallet = some true) :
    r ∈ (process_Wallets_table tl false db).db.source := by
  rw [process1_db]
  refine pass1_fold_source_mem tl db.source ⟨db, 0, 0, []⟩ r hr ?_
  intro r2 h2 heq
  exact htl

/-- An Absent row lands in the missing table with its balance and leaves
the source table. -/
lemma pass1_false_row (tl : String → Option Bool) (db : DB)
    (hnd : (walletsOf db.source).Nodup) (r : Row) (hr : r ∈ db.source)
    (htl : tl r.Wallet = some false) :
    findRowM (process_Wallets_table tl false db).db.missing r.Wallet =
        some ⟨r.Wallet, r.Balance⟩ ∧
      r.Wallet ∉ walletsOf (process_Wallets_table tl false db).db.source := by
  obtain ⟨l1, l2, hsplit⟩ := List.append_of_mem hr
  have hnd2 : ((l1 ++ r :: l2).map Row.Wallet).Nodup := by
    rw [← hsplit]; exact hnd
  obtain ⟨hne1, hne2⟩ := nodup_split Row.Wallet l1 l2 r hnd2
  rw [process1_db, hsplit, List.foldl_append, List.foldl_cons]
  set st1 := l1.foldl (pass1Step tl false) ⟨db, 0, 0, []⟩ with hst1
  constructor
  · rw [pass1_fold_missing_pres tl l2 _ r.Wallet
      (fun r2 h2 heq => absurd heq (hne2 r2 h2))]
    rw [pass1Step_missing, htl, if_pos rfl]
    exact findRowM_upsert_self _ _ _
  · refine pass1_fold_source_not_mem tl l2 _ r.Wallet ?_
    rw [pass1Step_source, htl]
    simp only [if_neg (by simp : ¬(some false = some true))]
    intro hmem
    exact ((mem_walletsOf_delete _ _ _).mp hmem).2 rfl

/-- An Indeterminate row lands in the retry table with its balance, the
pre-existing retry counter (default 0), and leaves the source table. -/
lemma pass1_none_row (tl : String → Option Bool) (db : DB)
    (hnd : (walletsOf db.source).Nodup) (r : Row) (hr : r ∈ db.source)
    (htl : tl r.Wallet = none) :
    findRowR (process_Wallets_table tl false db).db.retry r.Wallet =
        some ⟨r.Wallet, r.Balance, (lookupTries db.retry r.Wallet).getD 0⟩ ∧
      r.Wallet ∉ walletsOf (process_Wallets_table tl false db).db.source := by
  obtain ⟨l1, l2, hsplit⟩ := List.append_of_mem hr
  have hnd2 : ((l1 ++ r :: l2).map Row.Wallet).Nodup := by
    rw [← hsplit]; exact hnd
  obtain ⟨hne1, hne2⟩ := nodup_split Row.Wallet l1 l2 r hnd2
  rw [process1_db, hsplit, List.foldl_append, List.foldl_cons]
  set st1 := l1.foldl (pass1Step tl false) ⟨db, 0, 0, []⟩ with hst1
  constructor
  · rw [pass1_fold_retry_pres tl l2 _ r.Wallet
      (fun r2 h2 heq => absurd heq (hne2 r2 h2))]
    rw [pass1Step_retry, htl, if_pos rfl]
    rw [findRowR_upsert_self]
    have hpres : findRowR st1.db.retry r.Wallet = findRowR db.retry r.Wallet := by
      rw [hst1, pass1_fold_retry_pres tl l1 _ r.Wallet
        (fun r2 h2 heq => absurd heq (hne1 r2 h2))]
    rw [lookupTries_eq_findRowR, lookupTries_eq_findRowR, hpres]
  · refine pass1_fold_source_not_mem tl l2 _ r.Wallet ?_
    rw [pass1Step_source, htl]
    simp only [if_neg (by simp : ¬(none = some true))]
    intro hmem
    exact ((mem_walletsOf_delete _ _ _).mp hmem).2 rfl

/-! ## C3: pass 1 over the source table -/

/-- **C3**: pass 1 leaves Present wallets in the source table; moves each
Absent wallet to the missing table with its balance (overwriting any
existing row, which `findRowM` witnesses) and deletes it from source;
moves each Indeterminate wallet to the retry table and deletes it from
source; and returns the pair of counts of wallets moved to the two
destination tables. -/
theorem pass1_spec (tl : String → Option Bool) (db : DB)
    (hnd : (walletsOf db.source).Nodup) :
    (process_Wallets_table tl false db).moved_missing =
        db.source.countP (fun r => tl r.Wallet == some false) ∧
      (process_Wallets_table tl false db).moved_retry =
        db.source.countP (fun r => tl r.Wallet == none) ∧
      ∀ r ∈ db.source,
        (tl r.Wallet = some true → r ∈ (process_Wallets_table tl false db).db.source) ∧
        (tl r.Wallet = some false →
          findRowM (process_Wallets_table tl false db).db.missing r.Wallet =
              some ⟨r.Wallet, r.Balance⟩ ∧
            r.Wallet ∉ walletsOf (process_Wallets_table tl false db).db.source) ∧
        (tl r.Wallet = none →
          findRowR (process_Wallets_table tl false db).db.retry r.Wallet =
              some ⟨r.Wallet, r.Balance, (lookupTries db.retry r.Wallet).getD 0⟩ ∧
            r.Wallet ∉ walletsOf (process_Wallets_table tl false db).db.source) := by
  refine ⟨?_, ?_, ?_⟩
  · rw [process1_moved_missing, pass1_fold_moved_missing]
    simp
  · rw [process1_moved_retry, pass1_fold_moved_retry]
    simp
  · intro r hr
    exact ⟨fun h => pass1_true_row tl db hnd r hr h,
      fun h => pass1_false_row tl db hnd r hr h,
      fun h => pass1_none_row tl db hnd r hr h⟩

/-- Concrete inputs exercising all three outcomes of pass 1. -/
def dbW : DB :=
  ⟨[⟨"W1", 100⟩, ⟨"W2", 200⟩, ⟨"W3", 50⟩, ⟨"W4", 25⟩], [], [⟨"W3", 7, 3⟩]⟩

def tlW : String → Option Bool := fun w =>
  if w = "W1" then some true else if w = "W2" then some false else none

/-- Witness for C3 on `dbW`. -/
theorem pass1_spec_witness :
    (process_Wallets_table tlW false dbW).moved_missing = 1 ∧
      (process_Wallets_table tlW false dbW).moved_retry = 2 ∧
      Row.mk "W1" 100 ∈ (process_Wallets_table tlW false dbW).db.source ∧
      findRowM (process_Wallets_table tlW false dbW).db.missing "W2" = some ⟨"W2", 200⟩ := by
  have h := pass1_spec tlW dbW (by decide)
  refine ⟨h.1.trans (by decide), h.2.1.trans (by decide), ?_, ?_⟩
  · exact (h.2.2 ⟨"W1", 100⟩ (by decide)).1 (by decide)
  · exact ((h.2.2 ⟨"W2", 200⟩ (by decide)).2.1 (by decide)).1

/-! ## C9: retry-counter preservation -/

/-- **C9**: when pass 1 upserts a wallet into the retry table, the wallet
key and any pre-existing `tries` value are preserved (default 0 when no
row existed); only the balance is written fresh from the source row. -/
theorem retry_counter_preserved (tl : String → Option Bool) (db : DB)
    (hnd : (walletsOf db.source).Nodup) (r : Row) (hr : r ∈ db.source)
    (htl : tl r.Wallet = none) :
    findRowR (process_Wallets_table tl false db).db.retry r.Wallet =
      some ⟨r.Wallet, r.Balance, (lookupTries db.retry r.Wallet).getD 0⟩ :=
  (pass1_none_row tl db hnd r hr htl).1

/-- Witness for C9: `tries = 3` survives the upsert for W3; W4, with no
pre-existing retry row, gets `tries = 0`. -/
theorem retry_counter_preserved_witness :
    findRowR (process_Wallets_table tlW false dbW).db.retry "W3" = some ⟨"W3", 50, 3⟩ ∧
      findRowR (process_Wallets_table tlW false dbW).db.retry "W4" = some ⟨"W4", 25, 0⟩ :=
  ⟨(retry_counter_preserved tlW dbW (by decide) ⟨"W3", 50⟩ (by decide) (by decide)).trans
      (by decide),
    (retry_counter_preserved tlW dbW (by decide) ⟨"W4", 25⟩ (by decide) (by decide)).trans
      (by decide)⟩

/-! ## C7: the two-wallet scenario -/

/-- Per-wallet environments for the C7 scenario: W1's trustline is present
on the first endpoint's first attempt, W2's list is empty there. -/
def envOfC7 : String → Env := fun w => if w = "W1" then envW1 else envW2

def tlC7 : String → Option Bool := fun w => has_trustline (envOfC7 w)

def dbC7 : DB := ⟨[⟨"W1", 100⟩, ⟨"W2", 200⟩], [], []⟩

/-- **C7** (counterexample): with source `{W1: 100, W2: 200}`, W1 Present
and W2 Absent on the first endpoint/attempt, pass 1 leaves `{W1: 100}` in
the source table — the claimed empty source table is wrong (Present rows
stay, per the policy the code implements). -/
theorem scenario_counterexample :
    tlC7 "W1" = some true ∧ tlC7 "W2" = some false ∧
      (process_Wallets_table tlC7 false dbC7).db.source = [⟨"W1", 100⟩] ∧
      (process_Wallets_table tlC7 false dbC7).db.source ≠ [] := by decide

/-- **C7** (amended): same scenario; after pass 1 the source table is
`{W1: 100}`, the missing table `{W2: 200}`, the retry table empty, and the
returned counts are `moved_missing = 1`, `moved_retry = 0`. -/
theorem scenario_amended :
    (process_Wallets_table tlC7 false dbC7).db.source = [⟨"W1", 100⟩] ∧
      (process_Wallets_table tlC7 false dbC7).db.missing = [⟨"W2", 200⟩] ∧
      (process_Wallets_table tlC7 false dbC7).db.retry = [] ∧
      (process_Wallets_table tlC7 false dbC7).moved_missing = 1 ∧
      (process_Wallets_table tlC7 false dbC7).moved_retry = 0 := by decide

/-! ## C8: commit placement -/

/-- Each insert is immediately followed by the matching delete of the same
wallet (the two writes of one move are issued together). -/
def insFollowedByDel : List DbOp → Bool
  | DbOp.insertMissing w _ :: rest =>
      (match rest with
       | DbOp.deleteSource w2 :: _ => w2 == w
       | DbOp.deleteRetry w2 :: _ => w2 == w
       | _ => false) && insFollowedByDel rest
  | DbOp.insertRetry w _ :: rest =>
      (match rest with
       | DbOp.deleteSource w2 :: _ => w2 == w
       | _ => false) && insFollowedByDel rest
  | _ :: rest => insFollowedByDel rest
  | [] => true

def dbC8 : DB := ⟨[⟨"A", 1⟩, ⟨"B", 2⟩], [], []⟩

def tlC8 : String → Option Bool := fun _ => some false

/-- **C8** (counterexample): with two Absent wallets, pass 1 issues both
wallets' inserts and deletes and only then a single `commit` — there is no
commit between wallet A's move and the processing of wallet B, so A's move
is not made durable as its own unit. -/
theorem commit_per_wallet_counterexample :
    (process_Wallets_table tlC8 false dbC8).ops =
      [DbOp.classify "A", DbOp.insertMissing "A" 1, DbOp.deleteSource "A",
       DbOp.classify "B", DbOp.insertMissing "B" 2, DbOp.deleteSource "B", DbOp.commit] ∧
    ¬ (∀ (k j : Nat) (w : String) (b : ℚ) (w2 : String), k < j →
        (process_Wallets_table tlC8 false dbC8).ops[k]? = some (DbOp.insertMissing w b) →
        (process_Wallets_table tlC8 false dbC8).ops[j]? = some (DbOp.classify w2) →
        ∃ m : Nat, k < m ∧ m < j ∧
          (process_Wallets_table tlC8 false dbC8).ops[m]? = some DbOp.commit) := by
  refine ⟨by decide, ?_⟩
  intro h
  rcases h 1 3 "A" 1 "B" (by omega) (by decide) (by decide) with ⟨m, h1, h2, h3⟩
  have hm : m = 2 := by omega
  subst hm
  rw [show (process_Wallets_table tlC8 false dbC8).ops[2]? = some (DbOp.deleteSource "A")
    from by decide] at h3
  exact absurd h3 (by decide)

lemma insFollowedByDel_rowOps (tl : String → Option Bool) (sp : Bool) (r : Row)
    (rest : List DbOp) :
    insFollowedByDel (rowOps tl sp r ++ rest) = insFollowedByDel rest := by
  rcases h : tl r.Wallet with _ | b
  · cases sp <;> simp [rowOps, h, insFollowedByDel]
  · cases b <;> simp [rowOps, h, insFollowedByDel]

lemma insFollowedByDel_flatten (tl : String → Option Bool) (sp : Bool) :
    ∀ (rows : List Row) (tail : List DbOp),
      insFollowedByDel ((rows.map (rowOps tl sp)).flatten ++ tail) = insFollowedByDel tail := by
  intro rows
  induction rows with
  | nil => intro tail; simp
  | cons r rest ih =>
    intro tail
    rw [List.map_cons, List.flatten_cons, List.append_assoc, insFollowedByDel_rowOps, ih]

lemma rowOps_commit_free (tl : String → Option Bool) (sp : Bool) (r : Row) :
    (rowOps tl sp r).countP (fun o => o == DbOp.commit) = 0 := by
  rcases h : tl r.Wallet with _ | b
  · cases sp <;> simp [rowOps, h]
  · cases b <;> simp [rowOps, h]

lemma flatten_commit_free (tl : String → Option Bool) (sp : Bool) :
    ∀ rows : List Row,
      ((rows.map (rowOps tl sp)).flatten).countP (fun o => o == DbOp.commit) = 0 := by
  intro rows
  induction rows with
  | nil => simp
  | cons r rest ih =>
    rw [List.map_cons, List.flatten_cons, List.countP_append, ih, rowOps_commit_free]

/-- **C8** (amended): pass 1 issues each moved wallet's insert and delete
together (adjacently), but commits exactly once, as the final operation of
the pass — durability is per pass, not per wallet, so an external kill
mid-pass can lose every uncommitted move of the pass, not just the
in-flight wallet's. -/
theorem commit_once_per_pass (tl : String → Option Bool) (sp : Bool) (db : DB) :
    insFollowedByDel (process_Wallets_table tl sp db).ops = true ∧
      (process_Wallets_table tl sp db).ops.countP (fun o => o == DbOp.commit) = 1 ∧
      (process_Wallets_table tl sp db).ops.getLast? = some DbOp.commit := by
  rw [process1_ops]
  refine ⟨?_, ?_, ?_⟩
  · rw [insFollowedByDel_flatten]
    rfl
  · rw [List.countP_append, flatten_commit_free]
    rfl
  · exact List.getLast?_concat _

/-! ## C10: successful response without a `"lines"` field -/

/-- **C10**: a successful response whose result has no `"lines"` field
makes the engine return the empty list (not Indeterminate), so the
classifier answers Absent and pass 1 moves the wallet to the missing table
as a confirmed negative instead of routing it to the retry queue. -/
theorem empty_lines_absent (envOf : String → Env) (db : DB)
    (hnd : (walletsOf db.source).Nodup) (r : Row) (hr : r ∈ db.source)
    (i a : Nat) (hi : i ∈ List.range NODES.length) (ha : a ∈ attemptNumbers)
    (hs : envOf r.Wallet i a = AttemptResult.success none)
    (hearlier : ∀ j ∈ List.range NODES.length, ∀ b ∈ attemptNumbers,
      (j < i ∨ (j = i ∧ b < a)) → isSuccess (envOf r.Wallet j b) = false) :
    fetchResult (envOf r.Wallet) = some [] ∧
      has_trustline (envOf r.Wallet) = some false ∧
      findRowM (process_Wallets_table (fun w => has_trustline (envOf w)) false db).db.missing
          r.Wallet = some ⟨r.Wallet, r.Balance⟩ ∧
      r.Wallet ∉
        walletsOf (process_Wallets_table (fun w => has_trustline (envOf w)) false db).db.source := by
  have hfr : fetchResult (envOf r.Wallet) = some [] :=
    (fetch_first_success (envOf r.Wallet) i a none hi ha hs hearlier).1
  have hht : has_trustline (envOf r.Wallet) = some false := by
    simp [has_trustline, hfr]
  have hrow := pass1_false_row (fun w => has_trustline (envOf w)) db hnd r hr hht
  exact ⟨hfr, hht, hrow.1, hrow.2⟩

/-- Witness for C10: every response succeeds with a result lacking
`"lines"`; W1 is classified Absent and moved to the missing table. -/
theorem empty_lines_absent_witness :
    has_trustline envNoLines = some false ∧
      findRowM (process_Wallets_table (fun _ => has_trustline envNoLines) false dbC7).db.missing
        "W1" = some ⟨"W1", 100⟩ := by
  have h := empty_lines_absent (fun _ => envNoLines) dbC7 (by decide) ⟨"W1", 100⟩ (by decide)
    0 1 (by decide) (by decide) rfl (by decide)
  exact ⟨h.2.1, h.2.2.1⟩

/-! ## Pass-2 fold lemmas -/

lemma mem_retryRows_delete (t : List RetryRow) (w : String) (r : RetryRow) :
    r ∈ deleteRetryRows t w ↔ (r ∈ t ∧ r.Wallet ≠ w) := by
  simp [deleteRetryRows, List.mem_filter]

lemma pass2_fold_retry (tl : String → Option Bool) :
    ∀ (rows : List RetryRow) (st : Pass2State),
      (rows.foldl (pass2Step tl) st).db.retry =
        rows.foldl (fun t r => deleteRetryRows t r.Wallet) st.db.retry := by
  intro rows
  induction rows with
  | nil => intro st; rfl
  | cons r rest ih =>
    intro st
    rw [List.foldl_cons, List.foldl_cons, ih, pass2Step_retry]

lemma deleteAll_retry :
    ∀ (rows : List RetryRow) (t : List RetryRow),
      (∀ x ∈ t, x.Wallet ∈ rows.map RetryRow.Wallet) →
      rows.foldl (fun t r => deleteRetryRows t r.Wallet) t = [] := by
  intro rows
  induction rows with
  | nil =>
    intro t h
    cases t with
    | nil => rfl
    | cons x rest => exact absurd (h x (List.mem_cons_self _ _)) (by simp)
  | cons r rest ih =>
    intro t h
    rw [List.foldl_cons]
    refine ih _ ?_
    intro x hx
    obtain ⟨hxt, hne⟩ := (mem_retryRows_delete _ _ _).mp hx
    rcases List.mem_cons.mp (h x hxt) with heq | hmem
    · exact absurd heq hne
    · exact hmem

lemma pass2_fold_missing_pres (tl : String → Option Bool) :
    ∀ (rows : List RetryRow) (st : Pass2State) (w : String),
      (∀ r ∈ rows, r.Wallet = w → tl w = some true) →
      findRowM (rows.foldl (pass2Step tl) st).db.missing w = findRowM st.db.missing w := by
  intro rows
  induction rows with
  | nil => intro st w _; rfl
  | cons r rest ih =>
    intro st w h
    rw [List.foldl_cons, ih _ _ (fun r2 h2 => h r2 (List.mem_cons_of_mem _ h2))]
    rw [pass2Step_missing]
    by_cases ht : tl r.Wallet = some true
    · simp [ht]
    · have hne : w ≠ r.Wallet := by
        intro heq
        exact ht (heq ▸ h r (List.mem_cons_self _ _) heq.symm)
      simp only [ht, if_false]
      exact findRowM_upsert_other _ _ _ _ hne

lemma pass2_fold_ops (tl : String → Option Bool) :
    ∀ (rows : List RetryRow) (st : Pass2State),
      (rows.foldl (pass2Step tl) st).ops = st.ops ++ (rows.map (row2Ops tl)).flatten := by
  intro rows
  induction rows with
  | nil => intro st; simp
  | cons r rest ih =>
    intro st
    rw [List.foldl_cons, ih, pass2Step_ops]
    simp [List.append_assoc]

lemma process2_db (tl : String → Option Bool) (db : DB) :
    (process_retry_queue tl db).db = (db.retry.foldl (pass2Step tl) ⟨db, 0, []⟩).db := rfl

lemma process2_moved (tl : String → Option Bool) (db : DB) :
    (process_retry_queue tl db).moved_missing =
      (db.retry.foldl (pass2Step tl) ⟨db, 0, []⟩).moved_missing := rfl

lemma process2_ops (tl : String → Option Bool) (db : DB) :
    (process_retry_queue tl db).ops = (db.retry.map (row2Ops tl)).flatten ++ [DbOp.commit] := by
  show (db.retry.foldl (pass2Step tl) ⟨db, 0, []⟩).ops ++ [DbOp.commit] = _
  rw [pass2_fold_ops]
  simp

/-- The retry queue is always empty once `process_retry_queue` finishes:
every snapshot row's wallet is deleted from it, and nothing is added. -/
lemma process2_retry_empty (tl : String → Option Bool) (db : DB) :
    (process_retry_queue tl db).db.retry = [] := by
  rw [process2_db, pass2_fold_retry]
  exact deleteAll_retry db.retry db.retry
    (fun x hx => List.mem_map.mpr ⟨x, hx, rfl⟩)

/-- A retry row found Present on the second pass leaves the missing table
untouched at its key. -/
lemma pass2_true_row (tl : String → Option Bool) (db : DB)
    (hnd : (retryWalletsOf db.retry).Nodup) (r : RetryRow) (hr : r ∈ db.retry)
    (htl : tl r.Wallet = some true) :
    findRowM (process_retry_queue tl db).db.missing r.Wallet = findRowM db.missing r.Wallet := by
  rw [process2_db]
  refine pass2_fold_missing_pres tl db.retry ⟨db, 0, []⟩ r.Wallet ?_
  intro r2 h2 heq
  have : r2 = r := wallet_unique RetryRow.Wallet db.retry hnd r2 h2 r hr heq
  exact htl

/-- A retry row not found Present (Absent or still Indeterminate alike) is
upserted into the missing table with its balance. -/
lemma pass2_notTrue_row (tl : String → Option Bool) (db : DB)
    (hnd : (retryWalletsOf db.retry).Nodup) (r : RetryRow) (hr : r ∈ db.retry)
    (htl : tl r.Wallet ≠ some true) :
    findRowM (process_retry_queue tl db).db.missing r.Wallet = some ⟨r.Wallet, r.Balance⟩ := by
  obtain ⟨l1, l2, hsplit⟩ := List.append_of_mem hr
  have hnd2 : ((l1 ++ r :: l2).map RetryRow.Wallet).Nodup := by
    rw [← hsplit]; exact hnd
  obtain ⟨hne1, hne2⟩ := nodup_split RetryRow.Wallet l1 l2 r hnd2
  rw [process2_db, hsplit, List.foldl_append, List.foldl_cons]
  rw [pass2_fold_missing_pres tl l2 _ r.Wallet
    (fun r2 h2 heq => absurd heq (hne2 r2 h2))]
  rw [pass2Step_missing, if_neg htl]
  exact findRowM_upsert_self _ _ _

/-! ## Classification-attempt counting -/

lemma rowOps_classify_count (tl : String → Option Bool) (sp : Bool) (r : Row) (w : String) :
    (rowOps tl sp r).countP (fun o => o == DbOp.classify w) =
      if r.Wallet = w then 1 else 0 := by
  by_cases hw : r.Wallet = w
  · subst hw
    rcases h : tl r.Wallet with _ | b
    · cases sp <;> simp [rowOps, h]
    · cases b <;> simp [rowOps, h]
  · rcases h : tl r.Wallet with _ | b
    · cases sp <;> simp [rowOps, h, hw]
    · cases b <;> simp [rowOps, h, hw]

lemma flatten1_classify_count (tl : String → Option Bool) (sp : Bool) (w : String) :
    ∀ rows : List Row,
      ((rows.map (rowOps tl sp)).flatten).countP (fun o => o == DbOp.classify w) =
        rows.countP (fun r => r.Wallet == w) := by
  intro rows
  induction rows with
  | nil => simp
  | cons r rest ih =>
    rw [List.map_cons, List.flatten_cons, List.countP_append, ih, List.countP_cons,
      rowOps_classify_count]
    by_cases hw : r.Wallet = w <;> simp [hw] <;> omega

lemma row2Ops_classify_count (tl : String → Option Bool) (r : RetryRow) (w : String) :
    (row2Ops tl r).countP (fun o => o == DbOp.classify w) =
      if r.Wallet = w then 1 else 0 := by
  by_cases hw : r.Wallet = w
  · subst hw
    rcases h : tl r.Wallet with _ | b
    · simp [row2Ops, h]
    · cases b <;> simp [row2Ops, h]
  · rcases h : tl r.Wallet with _ | b
    · simp [row2Ops, h, hw]
    · cases b <;> simp [row2Ops, h, hw]

lemma flatten2_classify_count (tl : String → Option Bool) (w : String) :
    ∀ rows : List RetryRow,
      ((rows.map (row2Ops tl)).flatten).countP (fun o => o == DbOp.classify w) =
        rows.countP (fun r => r.Wallet == w) := by
  intro rows
  induction rows with
  | nil => simp
  | cons r rest ih =>
    rw [List.map_cons, List.flatten_cons, List.countP_append, ih, List.countP_cons,
      row2Ops_classify_count]
    by_cases hw : r.Wallet = w <;> simp [hw] <;> omega

lemma countP_wallet_le_one {α : Type} (f : α → String) (w : String) :
    ∀ l : List α, ((l.map f).Nodup) → l.countP (fun x => f x == w) ≤ 1 := by
  intro l
  induction l with
  | nil => intro _; simp
  | cons a rest ih =>
    intro h
    rw [List.map_cons, List.nodup_cons] at h
    rw [List.countP_cons]
    by_cases hw : f a = w
    · have hz : rest.countP (fun x => f x == w) = 0 := by
        rw [List.countP_eq_zero]
        intro x hx
        simp only [beq_iff_eq]
        intro heq
        exact h.1 (List.mem_map.mpr ⟨x, hx, heq.trans hw.symm⟩)
      simp [hz, hw]
    · have := ih h.2
      simp only [beq_iff_eq, hw]
      simpa using this

/-! ## C4: the retry pass -/

/-- **C4**: pass 2 runs exactly when pass 1 moved at least one wallet to
the retry queue; on the snapshot it classifies each row once more —
Present rows are only deleted (missing table untouched at their key),
while Absent and Indeterminate rows are treated identically, upserted into
the missing table and deleted; afterwards the retry queue is empty, and no
wallet is classified more than twice across the two passes. -/
theorem retry_pass_spec (tl1 tl2 : String → Option Bool) (db0 : DB)
    (hs : (walletsOf db0.source).Nodup) (hr0 : (retryWalletsOf db0.retry).Nodup) :
    ((process_Wallets_table tl1 false db0).moved_retry = 0 →
      main tl1 tl2 db0 =
        ⟨(process_Wallets_table tl1 false db0).db,
          (process_Wallets_table tl1 false db0).moved_missing,
          (process_Wallets_table tl1 false db0).moved_retry, none,
          (process_Wallets_table tl1 false db0).ops⟩) ∧
    (0 < (process_Wallets_table tl1 false db0).moved_retry →
      (main tl1 tl2 db0).db =
          (process_retry_queue tl2 (process_Wallets_table tl1 false db0).db).db ∧
        (main tl1 tl2 db0).moved_missing_2 =
          some (process_retry_queue tl2 (process_Wallets_table tl1 false db0).db).moved_missing) ∧
    (∀ r ∈ (process_Wallets_table tl1 false db0).db.retry,
      (tl2 r.Wallet = some true →
        findRowM (process_retry_queue tl2
            (process_Wallets_table tl1 false db0).db).db.missing r.Wallet =
          findRowM (process_Wallets_table tl1 false db0).db.missing r.Wallet) ∧
      (tl2 r.Wallet ≠ some true →
        findRowM (process_retry_queue tl2
            (process_Wallets_table tl1 false db0).db).db.missing r.Wallet =
          some ⟨r.Wallet, r.Balance⟩)) ∧
    (process_retry_queue tl2 (process_Wallets_table tl1 false db0).db).db.retry = [] ∧
    (∀ w, (main tl1 tl2 db0).ops.countP (fun o => o == DbOp.classify w) ≤ 2) := by
  have hr1 : (retryWalletsOf (process_Wallets_table tl1 false db0).db.retry).Nodup := by
    rw [process1_db]
    exact pass1_fold_retry_nodup tl1 db0.source ⟨db0, 0, 0, []⟩ hr0
  refine ⟨?_, ?_, ?_, process2_retry_empty _ _, ?_⟩
  · intro h
    simp [main, h]
  · intro h
    simp [main, h]
  · intro r hr
    exact ⟨fun h => pass2_true_row tl2 _ hr1 r hr h,
      fun h => pass2_notTrue_row tl2 _ hr1 r hr h⟩
  · intro w
    have h1 : (process_Wallets_table tl1 false db0).ops.countP
        (fun o => o == DbOp.classify w) ≤ 1 := by
      rw [process1_ops, List.countP_append, flatten1_classify_count]
      have := countP_wallet_le_one Row.Wallet w db0.source hs
      simpa [walletsOf] using this
    have h2 : (process_retry_queue tl2
        (process_Wallets_table tl1 false db0).db).ops.countP
          (fun o => o == DbOp.classify w) ≤ 1 := by
      rw [process2_ops, List.countP_append, flatten2_classify_count]
      have := countP_wallet_le_one RetryRow.Wallet w
        (process_Wallets_table tl1 false db0).db.retry hr1
      simpa [retryWalletsOf] using this
    by_cases h : 0 < (process_Wallets_table tl1 false db0).moved_retry
    · have hops : (main tl1 tl2 db0).ops =
          (process_Wallets_table tl1 false db0).ops ++
            (process_retry_queue tl2 (process_Wallets_table tl1 false db0).db).ops := by
        simp [main, h]
      rw [hops, List.countP_append]
      omega
    · have hops : (main tl1 tl2 db0).ops = (process_Wallets_table tl1 false db0).ops := by
        simp [main, h]
      rw [hops]
      omega

/-- Second-pass oracle for the witness run on `dbW`. -/
def tl2W : String → Option Bool := fun w => if w = "W3" then some true else some false

/-- Witness for C4: on `dbW` pass 1 queues W3 and W4; pass 2 runs, resolves
W3 as Present and W4 into the missing table, and empties the queue. -/
theorem retry_pass_spec_witness :
    (process_retry_queue tl2W (process_Wallets_table tlW false dbW).db).db.retry = [] ∧
      (main tlW tl2W dbW).moved_missing_2 = some 1 := by
  have h := retry_pass_spec tlW tl2W dbW (by decide) (by decide)
  refine ⟨h.2.2.2.1, ?_⟩
  exact ((h.2.1 (by decide)).2).trans (by decide)

/-! ## Well-formedness and residency counting -/

lemma WF_residentCount_le_one (db : DB) (hWF : db.WF) (v : String) :
    residentCount db v ≤ 1 := by
  obtain ⟨_, _, _, h4, h5, h6⟩ := hWF
  unfold residentCount
  by_cases hs : v ∈ walletsOf db.source
  · rw [if_pos hs, if_neg (fun hm => h4 hs hm), if_neg (fun hr => h5 hs hr)]
  · rw [if_neg hs]
    by_cases hm : v ∈ walletsOf db.missing
    · rw [if_pos hm, if_neg (fun hr => h6 hm hr)]
    · rw [if_neg hm]
      by_cases hr : v ∈ retryWalletsOf db.retry <;> simp [hr]

lemma residentCount_congr (db1 db2 : DB) (v : String)
    (h1 : v ∈ walletsOf db1.source ↔ v ∈ walletsOf db2.source)
    (h2 : v ∈ walletsOf db1.missing ↔ v ∈ walletsOf db2.missing)
    (h3 : v ∈ retryWalletsOf db1.retry ↔ v ∈ retryWalletsOf db2.retry) :
    residentCount db1 v = residentCount db2 v := by
  unfold residentCount
  rw [if_congr h1 rfl rfl, if_congr h2 rfl rfl, if_congr h3 rfl rfl]

lemma source_residentCount_one (db : DB) (hWF : db.WF) (v : String)
    (hv : v ∈ walletsOf db.source) : residentCount db v = 1 := by
  obtain ⟨_, _, _, h4, h5, _⟩ := hWF
  unfold residentCount
  rw [if_pos hv, if_neg (fun hm => h4 hv hm), if_neg (fun hr => h5 hv hr)]

lemma residentCount_source_or_missing (db : DB) (v : String)
    (hc : residentCount db v = 1) (hr : v ∉ retryWalletsOf db.retry) :
    v ∈ walletsOf db.source ∨ v ∈ walletsOf db.missing := by
  unfold residentCount at hc
  rw [if_neg hr] at hc
  by_cases hs : v ∈ walletsOf db.source
  · exact Or.inl hs
  · by_cases hm : v ∈ walletsOf db.missing
    · exact Or.inr hm
    · rw [if_neg hs, if_neg hm] at hc
      exact absurd hc (by simp)

lemma pass1Step_WF (tl : String → Option Bool) (st : PassState) (r : Row)
    (hWF : st.db.WF) (hmem : r.Wallet ∈ walletsOf st.db.source) :
    (pass1Step tl false st r).db.WF := by
  obtain ⟨h1, h2, h3, h4, h5, h6⟩ := hWF
  have hsrc := pass1Step_source tl false st r
  have hmis := pass1Step_missing tl st r
  have hret := pass1Step_retry tl st r
  rcases htl : tl r.Wallet with _ | b
  · rw [htl] at hsrc hmis hret
    rw [if_neg (by simp : ¬((none : Option Bool) = some true))] at hsrc
    rw [if_neg (by simp : ¬((none : Option Bool) = some false))] at hmis
    rw [if_pos rfl] at hret
    refine ⟨?_, ?_, ?_, ?_, ?_, ?_⟩
    · rw [hsrc]; exact nodup_walletsOf_delete _ _ h1
    · rw [hmis]; exact h2
    · rw [hret]; exact nodup_retryWalletsOf_upsert _ _ _ h3
    · intro v hv hm
      rw [hsrc] at hv
      rw [hmis] at hm
      exact h4 ((mem_walletsOf_delete _ _ _).mp hv).1 hm
    · intro v hv hr
      rw [hsrc] at hv
      rw [hret] at hr
      obtain ⟨hv2, hvne⟩ := (mem_walletsOf_delete _ _ _).mp hv
      rcases (mem_retryWalletsOf_upsert _ _ _ _).mp hr with rfl | hr2
      · exact hvne rfl
      · exact h5 hv2 hr2
    · intro v hm hr
      rw [hmis] at hm
      rw [hret] at hr
      rcases (mem_retryWalletsOf_upsert _ _ _ _).mp hr with rfl | hr2
      · exact h4 hmem hm
      · exact h6 hm hr2
  · cases b
    · rw [htl] at hsrc hmis hret
      rw [if_neg (by simp : ¬(some false = some true))] at hsrc
      rw [if_pos rfl] at hmis
      rw [if_neg (by simp : ¬(some false = (none : Option Bool)))] at hret
      refine ⟨?_, ?_, ?_, ?_, ?_, ?_⟩
      · rw [hsrc]; exact nodup_walletsOf_delete _ _ h1
      · rw [hmis]; exact nodup_walletsOf_upsert _ _ _ h2
      · rw [hret]; exact h3
      · intro v hv hm
        rw [hsrc] at hv
        rw [hmis] at hm
        obtain ⟨hv2, hvne⟩ := (mem_walletsOf_delete _ _ _).mp hv
        rcases (mem_walletsOf_upsert _ _ _ _).mp hm with rfl | hm2
        · exact hvne rfl
        · exact h4 hv2 hm2
      · intro v hv hr
        rw [hsrc] at hv
        rw [hret] at hr
        exact h5 ((mem_walletsOf_delete _ _ _).mp hv).1 hr
      · intro v hm hr
        rw [hmis] at hm
        rw [hret] at hr
        rcases (mem_walletsOf_upsert _ _ _ _).mp hm with rfl | hm2
        · exact h5 hmem hr
        · exact h6 hm2 hr
    · rw [htl] at hsrc hmis hret
      rw [if_pos rfl] at hsrc
      rw [if_neg (by simp : ¬(some true = some false))] at hmis
      rw [if_neg (by simp : ¬(some true = (none : Option Bool)))] at hret
      refine ⟨?_, ?_, ?_, ?_, ?_, ?_⟩
      · rw [hsrc]; exact h1
      · rw [hmis]; exact h2
      · rw [hret]; exact h3
      · intro v hv hm
        rw [hsrc] at hv
        rw [hmis] at hm
        exact h4 hv hm
      · intro v hv hr
        rw [hsrc] at hv
        rw [hret] at hr
        exact h5 hv hr
      · intro v hm hr
        rw [hmis] at hm
        rw [hret] at hr
        exact h6 hm hr

lemma pass1Step_count (tl : String → Option Bool) (st : PassState) (r : Row)
    (hWF : st.db.WF) (hmem : r.Wallet ∈ walletsOf st.db.source) (v : String) :
    residentCount (pass1Step tl false st r).db v = residentCount st.db v := by
  obtain ⟨h1, h2, h3, h4, h5, h6⟩ := hWF
  have hsrc := pass1Step_source tl false st r
  have hmis := pass1Step_missing tl st r
  have hret := pass1Step_retry tl st r
  rcases htl : tl r.Wallet with _ | b
  · rw [htl] at hsrc hmis hret
    rw [if_neg (by simp : ¬((none : Option Bool) = some true))] at hsrc
    rw [if_neg (by simp : ¬((none : Option Bool) = some false))] at hmis
    rw [if_pos rfl] at hret
    by_cases hv : v = r.Wallet
    · subst hv
      unfold residentCount
      rw [hsrc, hmis, hret]
      rw [if_pos hmem, if_neg (fun hm => h4 hmem hm), if_neg (fun hr => h5 hmem hr),
        if_neg (fun h => ((mem_walletsOf_delete _ _ _).mp h).2 rfl),
        if_pos ((mem_retryWalletsOf_upsert _ _ _ _).mpr (Or.inl rfl))]
    · refine residentCount_congr _ _ v ?_ ?_ ?_
      · rw [hsrc, mem_walletsOf_delete]
        exact ⟨fun h => h.1, fun h => ⟨h, hv⟩⟩
      · rw [hmis]
      · rw [hret, mem_retryWalletsOf_upsert]
        exact ⟨fun h => h.resolve_left hv, fun h => Or.inr h⟩
  · cases b
    · rw [htl] at hsrc hmis hret
      rw [if_neg (by simp : ¬(some false = some true))] at hsrc
      rw [if_pos rfl] at hmis
      rw [if_neg (by simp : ¬(some false = (none : Option Bool)))] at hret
      by_cases hv : v = r.Wallet
      · subst hv
        unfold residentCount
        rw [hsrc, hmis, hret]
        rw [if_pos hmem, if_neg (fun hm => h4 hmem hm), if_neg (fun hr => h5 hmem hr),
          if_neg (fun h => ((mem_walletsOf_delete _ _ _).mp h).2 rfl),
          if_pos ((mem_walletsOf_upsert _ _ _ _).mpr (Or.inl rfl))]
      · refine residentCount_congr _ _ v ?_ ?_ ?_
        · rw [hsrc, mem_walletsOf_delete]
          exact ⟨fun h => h.1, fun h => ⟨h, hv⟩⟩
        · rw [hmis, mem_walletsOf_upsert]
          exact ⟨fun h => h.resolve_left hv, fun h => Or.inr h⟩
        · rw [hret]
    · rw [htl] at hsrc hmis hret
      rw [if_pos rfl] at hsrc
      rw [if_neg (by simp : ¬(some true = some false))] at hmis
      rw [if_neg (by simp : ¬(some true = (none : Option Bool)))] at hret
      exact residentCount_congr _ _ v (by rw [hsrc]) (by rw [hmis]) (by rw [hret])

lemma pass1Step_source_mem_pres (tl : String → Option Bool) (st : PassState) (r : Row)
    (v : String) (hv : v ∈ walletsOf st.db.source) (hne : v ≠ r.Wallet) :
    v ∈ walletsOf (pass1Step tl false st r).db.source := by
  rw [pass1Step_source]
  by_cases ht : tl r.Wallet = some true
  · rwa [if_pos ht]
  · rw [if_neg ht]
    exact (mem_walletsOf_delete _ _ _).mpr ⟨hv, hne⟩

lemma pass1_fold_WF (tl : String → Option Bool) :
    ∀ (rows : List Row) (st : PassState), st.db.WF → (rows.map Row.Wallet).Nodup →
      (∀ r ∈ rows, r.Wallet ∈ walletsOf st.db.source) →
      (rows.foldl (pass1Step tl false) st).db.WF ∧
        ∀ v, residentCount (rows.foldl (pass1Step tl false) st).db v =
          residentCount st.db v := by
  intro rows
  induction rows with
  | nil => intro st h _ _; exact ⟨h, fun _ => rfl⟩
  | cons r rest ih =>
    intro st hWF hnd hmem
    rw [List.map_cons, List.nodup_cons] at hnd
    have hrmem := hmem r (List.mem_cons_self _ _)
    have hstep := pass1Step_WF tl st r hWF hrmem
    have hmem2 : ∀ r2 ∈ rest, r2.Wallet ∈ walletsOf (pass1Step tl false st r).db.source := by
      intro r2 h2
      refine pass1Step_source_mem_pres tl st r _ (hmem r2 (List.mem_cons_of_mem _ h2)) ?_
      intro heq
      exact hnd.1 (heq ▸ List.mem_map.mpr ⟨r2, h2, rfl⟩)
    rw [List.foldl_cons]
    obtain ⟨hWF2, hcount2⟩ := ih (pass1Step tl false st r) hstep hnd.2 hmem2
    exact ⟨hWF2, fun v => (hcount2 v).trans (pass1Step_count tl st r hWF hrmem v)⟩

lemma pass1_scanl_WF (tl : String → Option Bool) :
    ∀ (rows : List Row) (st : PassState), st.db.WF → (rows.map Row.Wallet).Nodup →
      (∀ r ∈ rows, r.Wallet ∈ walletsOf st.db.source) →
      ∀ x ∈ rows.scanl (pass1Step tl false) st, x.db.WF := by
  intro rows
  induction rows with
  | nil =>
    intro st h _ _ x hx
    rw [List.scanl_nil, List.mem_singleton] at hx
    exact hx ▸ h
  | cons r rest ih =>
    intro st hWF hnd hmem x hx
    rw [List.map_cons, List.nodup_cons] at hnd
    have hrmem := hmem r (List.mem_cons_self _ _)
    have hstep := pass1Step_WF tl st r hWF hrmem
    have hmem2 : ∀ r2 ∈ rest, r2.Wallet ∈ walletsOf (pass1Step tl false st r).db.source := by
      intro r2 h2
      refine pass1Step_source_mem_pres tl st r _ (hmem r2 (List.mem_cons_of_mem _ h2)) ?_
      intro heq
      exact hnd.1 (heq ▸ List.mem_map.mpr ⟨r2, h2, rfl⟩)
    rw [List.scanl_cons, List.singleton_append, List.mem_cons] at hx
    rcases hx with rfl | hx
    · exact hWF
    · exact ih (pass1Step tl false st r) hstep hnd.2 hmem2 x hx

lemma pass2Step_WF (tl : String → Option Bool) (st : Pass2State) (r : RetryRow)
    (hWF : st.db.WF) (hmem : r.Wallet ∈ retryWalletsOf st.db.retry) :
    (pass2Step tl st r).db.WF := by
  obtain ⟨h1, h2, h3, h4, h5, h6⟩ := hWF
  have hsrc := pass2Step_source tl st r
  have hmis := pass2Step_missing tl st r
  have hret := pass2Step_retry tl st r
  by_cases ht : tl r.Wallet = some true
  · rw [if_pos ht] at hmis
    refine ⟨?_, ?_, ?_, ?_, ?_, ?_⟩
    · rw [hsrc]; exact h1
    · rw [hmis]; exact h2
    · rw [hret]; exact nodup_retryWalletsOf_delete _ _ h3
    · intro v hv hm
      rw [hsrc] at hv; rw [hmis] at hm
      exact h4 hv hm
    · intro v hv hr
      rw [hsrc] at hv; rw [hret] at hr
      exact h5 hv ((mem_retryWalletsOf_delete _ _ _).mp hr).1
    · intro v hm hr
      rw [hmis] at hm; rw [hret] at hr
      exact h6 hm ((mem_retryWalletsOf_delete _ _ _).mp hr).1
  · rw [if_neg ht] at hmis
    refine ⟨?_, ?_, ?_, ?_, ?_, ?_⟩
    · rw [hsrc]; exact h1
    · rw [hmis]; exact nodup_walletsOf_upsert _ _ _ h2
    · rw [hret]; exact nodup_retryWalletsOf_delete _ _ h3
    · intro v hv hm
      rw [hsrc] at hv; rw [hmis] at hm
      rcases (mem_walletsOf_upsert _ _ _ _).mp hm with rfl | hm2
      · exact h5 hv hmem
      · exact h4 hv hm2
    · intro v hv hr
      rw [hsrc] at hv; rw [hret] at hr
      exact h5 hv ((mem_retryWalletsOf_delete _ _ _).mp hr).1
    · intro v hm hr
      rw [hmis] at hm; rw [hret] at hr
      obtain ⟨hr2, hrne⟩ := (mem_retryWalletsOf_delete _ _ _).mp hr
      rcases (mem_walletsOf_upsert _ _ _ _).mp hm with rfl | hm2
      · exact hrne rfl
      · exact h6 hm2 hr2

lemma pass2Step_count_other (tl : String → Option Bool) (st : Pass2State) (r : RetryRow)
    (v : String) (hne : v ≠ r.Wallet) :
    residentCount (pass2Step tl st r).db v = residentCount st.db v := by
  have hsrc := pass2Step_source tl st r
  have hmis := pass2Step_missing tl st r
  have hret := pass2Step_retry tl st r
  refine residentCount_congr _ _ v (by rw [hsrc]) ?_ ?_
  · rw [hmis]
    by_cases ht : tl r.Wallet = some true
    · rw [if_pos ht]
    · rw [if_neg ht, mem_walletsOf_upsert]
      exact ⟨fun h => h.resolve_left hne, fun h => Or.inr h⟩
  · rw [hret, mem_retryWalletsOf_delete]
    exact ⟨fun h => h.1, fun h => ⟨h, hne⟩⟩

lemma pass2Step_count_self (tl : String → Option Bool) (st : Pass2State) (r : RetryRow)
    (hWF : st.db.WF) (hmem : r.Wallet ∈ retryWalletsOf st.db.retry) :
    residentCount (pass2Step tl st r).db r.Wallet =
      if tl r.Wallet = some true then 0 else 1 := by
  obtain ⟨h1, h2, h3, h4, h5, h6⟩ := hWF
  have hsrc := pass2Step_source tl st r
  have hmis := pass2Step_missing tl st r
  have hret := pass2Step_retry tl st r
  have hnsrc : r.Wallet ∉ walletsOf st.db.source := fun hs => h5 hs hmem
  have hnmis : r.Wallet ∉ walletsOf st.db.missing := fun hm => h6 hm hmem
  by_cases ht : tl r.Wallet = some true
  · rw [if_pos ht] at hmis
    rw [if_pos ht]
    unfold residentCount
    rw [hsrc, hmis, hret]
    rw [if_neg hnsrc, if_neg hnmis,
      if_neg (fun h => ((mem_retryWalletsOf_delete _ _ _).mp h).2 rfl)]
  · rw [if_neg ht] at hmis
    rw [if_neg ht]
    unfold residentCount
    rw [hsrc, hmis, hret]
    rw [if_neg hnsrc, if_pos ((mem_walletsOf_upsert _ _ _ _).mpr (Or.inl rfl)),
      if_neg (fun h => ((mem_retryWalletsOf_delete _ _ _).mp h).2 rfl)]

lemma pass2_fold_count_other (tl : String → Option Bool) :
    ∀ (rows : List RetryRow) (st : Pass2State) (v : String),
      (∀ r ∈ rows, r.Wallet ≠ v) →
      residentCount (rows.foldl (pass2Step tl) st).db v = residentCount st.db v := by
  intro rows
  induction rows with
  | nil => intro st v _; rfl
  | cons r rest ih =>
    intro st v h
    rw [List.foldl_cons, ih _ _ (fun r2 h2 => h r2 (List.mem_cons_of_mem _ h2))]
    exact pass2Step_count_other tl st r v (Ne.symm (h r (List.mem_cons_self _ _)))

lemma pass2Step_retry_mem_pres (tl : String → Option Bool) (st : Pass2State) (r : RetryRow)
    (v : String) (hv : v ∈ retryWalletsOf st.db.retry) (hne : v ≠ r.Wallet) :
    v ∈ retryWalletsOf (pass2Step tl st r).db.retry := by
  rw [pass2Step_retry]
  exact (mem_retryWalletsOf_delete _ _ _).mpr ⟨hv, hne⟩

lemma pass2_scanl_WF (tl : String → Option Bool) :
    ∀ (rows : List RetryRow) (st : Pass2State), st.db.WF →
      (rows.map RetryRow.Wallet).Nodup →
      (∀ r ∈ rows, r.Wallet ∈ retryWalletsOf st.db.retry) →
      ∀ x ∈ rows.scanl (pass2Step tl) st, x.db.WF := by
  intro rows
  induction rows with
  | nil =>
    intro st h _ _ x hx
    rw [List.scanl_nil, List.mem_singleton] at hx
    exact hx ▸ h
  | cons r rest ih =>
    intro st hWF hnd hmem x hx
    rw [List.map_cons, List.nodup_cons] at hnd
    have hrmem := hmem r (List.mem_cons_self _ _)
    have hstep := pass2Step_WF tl st r hWF hrmem
    have hmem2 : ∀ r2 ∈ rest, r2.Wallet ∈ retryWalletsOf (pass2Step tl st r).db.retry := by
      intro r2 h2
      refine pass2Step_retry_mem_pres tl st r _ (hmem r2 (List.mem_cons_of_mem _ h2)) ?_
      intro heq
      exact hnd.1 (heq ▸ List.mem_map.mpr ⟨r2, h2, rfl⟩)
    rw [List.scanl_cons, List.singleton_append, List.mem_cons] at hx
    rcases hx with rfl | hx
    · exact hWF
    · exact ih (pass2Step tl st r) hstep hnd.2 hmem2 x hx

lemma pass2_fold_count_mem (tl : String → Option Bool) :
    ∀ (rows : List RetryRow) (st : Pass2State) (w : String), st.db.WF →
      (rows.map RetryRow.Wallet).Nodup →
      (∀ r ∈ rows, r.Wallet ∈ retryWalletsOf st.db.retry) →
      w ∈ rows.map RetryRow.Wallet →
      residentCount (rows.foldl (pass2Step tl) st).db w =
        if tl w = some true then 0 else 1 := by
  intro rows
  induction rows with
  | nil => intro st w _ _ _ hw; simp at hw
  | cons r rest ih =>
    intro st w hWF hnd hmem hw
    rw [List.map_cons, List.nodup_cons] at hnd
    have hrmem := hmem r (List.mem_cons_self _ _)
    have hstep := pass2Step_WF tl st r hWF hrmem
    have hmem2 : ∀ r2 ∈ rest, r2.Wallet ∈ retryWalletsOf (pass2Step tl st r).db.retry := by
      intro r2 h2
      refine pass2Step_retry_mem_pres tl st r _ (hmem r2 (List.mem_cons_of_mem _ h2)) ?_
      intro heq
      exact hnd.1 (heq ▸ List.mem_map.mpr ⟨r2, h2, rfl⟩)
    rw [List.foldl_cons]
    rw [List.map_cons, List.mem_cons] at hw
    rcases hw with rfl | hw2
    · rw [pass2_fold_count_other tl rest _ r.Wallet
        (fun r2 h2 heq => hnd.1 (heq ▸ List.mem_map.mpr ⟨r2, h2, rfl⟩))]
      exact pass2Step_count_self tl st r hWF hrmem
    · exact ih (pass2Step tl st r) w hstep hnd.2 hmem2 hw2

/-! ## C5: residency invariant -/

/-- **C5**: starting from a well-formed store, every wallet of the source
table resides in at most one table at every observable state of the run,
and after both passes it either resides in exactly one of source/missing,
or — exactly when it was Indeterminate in pass 1 and Present on the retry
pass — it has been deleted from all three tables. -/
theorem residency_spec (tl1 tl2 : String → Option Bool) (db0 : DB) (hWF : db0.WF)
    (w : String) (hw : w ∈ walletsOf db0.source) :
    (∀ st ∈ mainStates tl1 tl2 db0, ∀ v, residentCount st v ≤ 1) ∧
      ((residentCount (main tl1 tl2 db0).db w = 1 ∧
          (w ∈ walletsOf (main tl1 tl2 db0).db.source ∨
            w ∈ walletsOf (main tl1 tl2 db0).db.missing)) ∨
        (residentCount (main tl1 tl2 db0).db w = 0 ∧
          tl1 w = none ∧ tl2 w = some true)) := by
  have hnds : (db0.source.map Row.Wallet).Nodup := hWF.1
  have hmem0 : ∀ r ∈ db0.source, r.Wallet ∈ walletsOf db0.source :=
    fun r hr => List.mem_map.mpr ⟨r, hr, rfl⟩
  obtain ⟨hWF1, hcount1⟩ :=
    pass1_fold_WF tl1 db0.source ⟨db0, 0, 0, []⟩ hWF hnds hmem0
  have hp1WF : (process_Wallets_table tl1 false db0).db.WF := by
    rw [process1_db]; exact hWF1
  have hp1count : ∀ v, residentCount (process_Wallets_table tl1 false db0).db v =
      residentCount db0 v := by
    intro v; rw [process1_db]; exact hcount1 v
  have hp1rnd : (retryWalletsOf (process_Wallets_table tl1 false db0).db.retry).Nodup := by
    rw [process1_db]
    exact pass1_fold_retry_nodup tl1 db0.source ⟨db0, 0, 0, []⟩ hWF.2.2.1
  have hmem1 : ∀ r ∈ (process_Wallets_table tl1 false db0).db.retry,
      r.Wallet ∈ retryWalletsOf (process_Wallets_table tl1 false db0).db.retry :=
    fun r hr => List.mem_map.mpr ⟨r, hr, rfl⟩
  have hw1 : residentCount db0 w = 1 := source_residentCount_one db0 hWF w hw
  have hwretry0 : w ∉ retryWalletsOf db0.retry := fun hr => hWF.2.2.2.2.1 hw hr
  constructor
  · -- every observable state keeps every wallet in at most one table
    intro st hst v
    unfold mainStates at hst
    by_cases h : 0 < (process_Wallets_table tl1 false db0).moved_retry
    · rw [if_pos h, List.mem_append] at hst
      rcases hst with hst | hst
      · obtain ⟨ps, hps, rfl⟩ := List.mem_map.mp hst
        exact WF_residentCount_le_one _
          (pass1_scanl_WF tl1 db0.source ⟨db0, 0, 0, []⟩ hWF hnds hmem0 ps hps) v
      · obtain ⟨ps, hps, rfl⟩ := List.mem_map.mp hst
        exact WF_residentCount_le_one _
          (pass2_scanl_WF tl2 (process_Wallets_table tl1 false db0).db.retry
            ⟨(process_Wallets_table tl1 false db0).db, 0, []⟩ hp1WF hp1rnd hmem1 ps hps) v
    · rw [if_neg h] at hst
      obtain ⟨ps, hps, rfl⟩ := List.mem_map.mp hst
      exact WF_residentCount_le_one _
        (pass1_scanl_WF tl1 db0.source ⟨db0, 0, 0, []⟩ hWF hnds hmem0 ps hps) v
  · -- final residency
    by_cases h : 0 < (process_Wallets_table tl1 false db0).moved_retry
    · have hdb : (main tl1 tl2 db0).db =
          (process_retry_queue tl2 (process_Wallets_table tl1 false db0).db).db := by
        simp [main, h]
      by_cases hwr : w ∈ retryWalletsOf (process_Wallets_table tl1 false db0).db.retry
      · have htl1 : tl1 w = none := by
          have horigin := pass1_fold_retry_origin tl1 db0.source ⟨db0, 0, 0, []⟩ w
            (by rw [process1_db] at hwr; exact hwr)
          rcases horigin with hmem | hn
          · exact absurd hmem hwretry0
          · exact hn
        have hcnt : residentCount (main tl1 tl2 db0).db w =
            if tl2 w = some true then 0 else 1 := by
          rw [hdb, process2_db]
          exact pass2_fold_count_mem tl2 (process_Wallets_table tl1 false db0).db.retry
            ⟨(process_Wallets_table tl1 false db0).db, 0, []⟩ w hp1WF hp1rnd hmem1 hwr
        by_cases htl2 : tl2 w = some true
        · refine Or.inr ⟨?_, htl1, htl2⟩
          rw [hcnt, if_pos htl2]
        · refine Or.inl ⟨?_, ?_⟩
          · rw [hcnt, if_neg htl2]
          · refine residentCount_source_or_missing _ _ (by rw [hcnt, if_neg htl2]) ?_
            rw [hdb, process2_retry_empty]
            simp [retryWalletsOf]
      · have hcnt : residentCount (main tl1 tl2 db0).db w = 1 := by
          rw [hdb, process2_db]
          rw [pass2_fold_count_other tl2 (process_Wallets_table tl1 false db0).db.retry
            ⟨(process_Wallets_table tl1 false db0).db, 0, []⟩ w ?_]
          · exact (hp1count w).trans hw1
          · intro r hr heq
            exact hwr (heq ▸ List.mem_map.mpr ⟨r, hr, rfl⟩)
        refine Or.inl ⟨hcnt, ?_⟩
        refine residentCount_source_or_missing _ _ hcnt ?_
        rw [hdb, process2_retry_empty]
        simp [retryWalletsOf]
    · have hdb : (main tl1 tl2 db0).db = (process_Wallets_table tl1 false db0).db := by
        simp [main, h]
      have hcnt : residentCount (main tl1 tl2 db0).db w = 1 := by
        rw [hdb]; exact (hp1count w).trans hw1
      refine Or.inl ⟨hcnt, ?_⟩
      refine residentCount_source_or_missing _ _ hcnt ?_
      intro hwr
      rw [hdb] at hwr
      rcases pass1_fold_retry_origin tl1 db0.source ⟨db0, 0, 0, []⟩ w
        (by rw [process1_db] at hwr; exact hwr) with hmem | hn
      · exact hwretry0 hmem
      · obtain ⟨r0, hr0, rfl⟩ := List.mem_map.mp hw
        have hpos : 0 < db0.source.countP (fun r => tl1 r.Wallet == none) :=
          List.countP_pos.mpr ⟨r0, hr0, by simp [hn]⟩
        rw [process1_moved_retry, pass1_fold_moved_retry] at h
        refine h ?_
        have hz : ({ db := db0, moved_missing := 0, moved_retry := 0, ops := [] } :
          PassState).moved_retry = 0 := rfl
        omega

/-- All-Present second-pass oracle used in the C5 witness. -/
def tlAllTrue : String → Option Bool := fun _ => some true

/-- Witness for C5 at the concrete two-wallet scenario. -/
theorem residency_spec_witness :
    (residentCount (main tlC7 tlAllTrue dbC7).db "W1" = 1 ∧
        ("W1" ∈ walletsOf (main tlC7 tlAllTrue dbC7).db.source ∨
          "W1" ∈ walletsOf (main tlC7 tlAllTrue dbC7).db.missing)) ∨
      (residentCount (main tlC7 tlAllTrue dbC7).db "W1" = 0 ∧
        tlC7 "W1" = none ∧ tlAllTrue "W1" = some true) :=
  (residency_spec tlC7 tlAllTrue dbC7 (by decide) "W1" (by decide)).2

end CheckTL
